import Mathlib

/-!
Verification of `fastapi_msgspec_openapi/updater.py`.

The updater walks a FastAPI route table and rewrites the response entries of
an OpenAPI document (a nested dictionary of path → method → operation →
responses → status) so that they reference the `msgspec.Struct` extracted
from each handler's return annotation.

The embedding below models Python dictionaries-of-`Any` as a JSON-like value
type with association-list objects, and models each Python dictionary/
attribute operation used by the source (`in`, `[]`, `.get`, item assignment)
with its Python semantics, including the exceptions those operations raise on
ill-typed operands.  Exceptions are explicit `PyErr` values; in-place
mutation is explicit state passing of the `paths` value.  Logging is modelled
as the list of levels of the log records emitted.
-/

/-- JSON-like values: the universe of Python objects the updater touches. -/
inductive Json where
  | null  : Json
  | bool  : Bool → Json
  | num   : Int → Json
  | str   : String → Json
  | arr   : List Json → Json
  | obj   : List (String × Json) → Json

mutual

/-- Boolean structural equality on `Json`. -/
def Json.beq : Json → Json → Bool
  | Json.null, Json.null => true
  | Json.bool a, Json.bool b => a = b
  | Json.num a, Json.num b => a = b
  | Json.str a, Json.str b => a = b
  | Json.arr xs, Json.arr ys => Json.beqList xs ys
  | Json.obj xs, Json.obj ys => Json.beqKVs xs ys
  | _, _ => false

/-- Boolean structural equality on lists of `Json`. -/
def Json.beqList : List Json → List Json → Bool
  | [], [] => true
  | x :: xs, y :: ys => Json.beq x y && Json.beqList xs ys
  | _, _ => false

/-- Boolean structural equality on association lists of `Json`. -/
def Json.beqKVs : List (String × Json) → List (String × Json) → Bool
  | [], [] => true
  | (k, v) :: xs, (l, w) :: ys => k = l && Json.beq v w && Json.beqKVs xs ys
  | _, _ => false

end

mutual

theorem Json.beq_iff : ∀ a b : Json, Json.beq a b = true ↔ a = b
  | Json.null, b => by cases b <;> simp [Json.beq]
  | Json.bool a, b => by cases b <;> simp [Json.beq]
  | Json.num a, b => by cases b <;> simp [Json.beq]
  | Json.str a, b => by cases b <;> simp [Json.beq]
  | Json.arr xs, b => by
      cases b with
      | arr ys =>
          simp only [Json.beq, Json.arr.injEq]
          exact Json.beqList_iff xs ys
      | null => simp [Json.beq]
      | bool b => simp [Json.beq]
      | num n => simp [Json.beq]
      | str s => simp [Json.beq]
      | obj kvs => simp [Json.beq]
  | Json.obj xs, b => by
      cases b with
      | obj ys =>
          simp only [Json.beq, Json.obj.injEq]
          exact Json.beqKVs_iff xs ys
      | null => simp [Json.beq]
      | bool b => simp [Json.beq]
      | num n => simp [Json.beq]
      | str s => simp [Json.beq]
      | arr xs => simp [Json.beq]

theorem Json.beqList_iff : ∀ xs ys : List Json, Json.beqList xs ys = true ↔ xs = ys
  | [], ys => by cases ys <;> simp [Json.beqList]
  | x :: xs, ys => by
      cases ys with
      | nil => simp [Json.beqList]
      | cons y ys =>
          simp only [Json.beqList, Bool.and_eq_true, List.cons.injEq]
          rw [Json.beq_iff x y, Json.beqList_iff xs ys]

theorem Json.beqKVs_iff :
    ∀ xs ys : List (String × Json), Json.beqKVs xs ys = true ↔ xs = ys
  | [], ys => by cases ys <;> simp [Json.beqKVs]
  | (k, v) :: xs, ys => by
      cases ys with
      | nil => simp [Json.beqKVs]
      | cons p ys =>
          obtain ⟨l, w⟩ := p
          simp only [Json.beqKVs, Bool.and_eq_true, List.cons.injEq, Prod.mk.injEq,
            decide_eq_true_eq]
          rw [Json.beq_iff v w, Json.beqKVs_iff xs ys]

end

instance : DecidableEq Json := fun a b => decidable_of_iff _ (Json.beq_iff a b)

/-- Python exception classes that the modelled operations can raise. -/
inductive PyErr where
  | nameError      : PyErr
  | attributeError : PyErr
  | typeError      : PyErr
  | keyError       : PyErr
  | otherError     : PyErr
deriving DecidableEq, Repr

/-- Log levels of the records the updater emits. -/
inductive LogLevel where
  | debug : LogLevel
  | error : LogLevel
deriving DecidableEq, Repr

/-- The sequence of log-record levels emitted by a call. -/
abbrev Log := List LogLevel

/-- Association-list lookup: Python `d[k]` / `k in d` on a dict, first match. -/
def alookup {α : Type} : List (String × α) → String → Option α
  | [], _ => none
  | (k, v) :: rest, key => if k = key then some v else alookup rest key

/-- Association-list store: Python `d[k] = v` (replace in place, else append). -/
def astore {α : Type} : List (String × α) → String → α → List (String × α)
  | [], key, v => [(key, v)]
  | (k, w) :: rest, key, v =>
      if k = key then (k, v) :: rest else (k, w) :: astore rest key v

/-- Does the first character list lead (start) the second? -/
def charsLead : List Char → List Char → Bool
  | [], _ => true
  | _ :: _, [] => false
  | a :: as, b :: bs => a = b && charsLead as bs

/-- Does the first character list occur contiguously inside the second?
This is Python's `needle in haystack` on strings. -/
def charsWithin : List Char → List Char → Bool
  | needle, [] => needle.isEmpty
  | needle, b :: bs => charsLead needle (b :: bs) || charsWithin needle bs

/-- Python `key in container` for a string key, with Python's semantics:
key membership on dicts, element equality on lists, substring test on
strings, and `TypeError` on non-container values. -/
def pyContains : Json → String → Except PyErr Bool
  | Json.obj kvs, k => Except.ok (alookup kvs k).isSome
  | Json.arr xs, k =>
      Except.ok (xs.any (fun e => match e with
        | Json.str t => t = k
        | _ => false))
  | Json.str s, k => Except.ok (charsWithin k.data s.data)
  | _, _ => Except.error PyErr.typeError

/-- Python `container[k]` for a string key: dict lookup (`KeyError` when the
key is absent), `TypeError` on every non-dict value. -/
def pyIndex : Json → String → Except PyErr Json
  | Json.obj kvs, k =>
      match alookup kvs k with
      | some v => Except.ok v
      | none => Except.error PyErr.keyError
  | _, _ => Except.error PyErr.typeError

/-- Python `v.get(k, default)`: only dicts have a `get` attribute, every
other value raises `AttributeError`. -/
def pyGet : Json → String → Json → Except PyErr Json
  | Json.obj kvs, k, d => Except.ok ((alookup kvs k).getD d)
  | _, _, _ => Except.error PyErr.attributeError

/-- Python `container[k] = v` for a string key: in-place dict store,
`TypeError` on every non-dict value. -/
def pySet : Json → String → Json → Except PyErr Json
  | Json.obj kvs, k, v => Except.ok (Json.obj (astore kvs k v))
  | _, _, _ => Except.error PyErr.typeError

/-- Functional rendering of an in-place store into a value already known to
be a dict; on a non-dict it leaves the value unchanged (the updater only
applies it after the corresponding read has succeeded, so the fallback
branch is never reached). -/
def jsonStore : Json → String → Json → Json
  | Json.obj kvs, k, v => Json.obj (astore kvs k v)
  | other, _, _ => other

/-- Lowercasing of an ASCII character, as Python's `str.lower` acts on the
ASCII range (HTTP method names are ASCII). -/
def charLower (c : Char) : Char :=
  if 65 ≤ c.toNat ∧ c.toNat ≤ 90 then Char.ofNat (c.toNat + 32) else c

/-- Python `method.lower()` on an ASCII method name. -/
def asciiLower (s : String) : String := String.mk (s.data.map charLower)

/-- Return-type annotations as an explicit typed-expression tree: a record
(`msgspec.Struct`) type carrying its `__name__`, a plain non-record type, an
`Optional` wrapper, a union, and a generic application. -/
inductive TypeExpr where
  | record    : String → TypeExpr
  | plain     : String → TypeExpr
  | optionalT : TypeExpr → TypeExpr
  | unionT    : List TypeExpr → TypeExpr
  | generic   : String → List TypeExpr → TypeExpr

/-- Keep a candidate record name only when it is the single one. -/
def singleRecord : List String → Option String
  | [n] => some n
  | _ => none

mutual

/-- Modelled from the spec: `extract_struct` lives in
`fastapi_msgspec_openapi/scanner.py`, which is not among the sources; the
spec describes it as: return a record type directly; for a composite
(optional wrapper, union, or other generic container) resolve the single
unambiguous record-type branch if exactly one exists, returning absent
otherwise; never raise.  The result is the record type's name. -/
def extract_struct : TypeExpr → Option String
  | TypeExpr.record n => some n
  | TypeExpr.plain _ => none
  | TypeExpr.optionalT t => extract_struct t
  | TypeExpr.unionT args => singleRecord (extractAll args)
  | TypeExpr.generic _ args => singleRecord (extractAll args)

/-- Modelled from the spec: the record names of the branches of a composite
type argument list that recursively resolve to a record type. -/
def extractAll : List TypeExpr → List String
  | [] => []
  | t :: ts =>
      match extract_struct t with
      | some n => n :: extractAll ts
      | none => extractAll ts

end

/-- A route handler: its `__name__` and the outcome of
`typing.get_type_hints` on it.  `get_type_hints` is an external collaborator
(the standard library); its outcome — the resolved annotation dictionary, or
the exception it raises (a `NameError` for a forward reference to a name not
in scope) — is carried as data on the handler. -/
structure Endpoint where
  name : String
  hints : Except PyErr (List (String × TypeExpr))

/-- The attributes of a FastAPI route consumed by the updater.
`isAPIRoute` models the `isinstance(route, APIRoute)` test; `methods` is the
route's HTTP-method set; `status_code` is `None` or an integer. -/
structure Route where
  isAPIRoute : Bool
  endpoint : Option Endpoint
  path : String
  methods : List String
  status_code : Option Int

/-- Python `route.status_code or 200`: `or` takes the right operand exactly
when the left is falsy, i.e. `None` or the integer `0`. -/
def statusOr200 : Option Int → Int
  | none => 200
  | some n => if n = 0 then 200 else n

/-- The response entry written by the updater: preserved/default description
plus a single JSON media type whose schema is a `$ref` to the record type's
component schema. -/
def newResponseEntry (description : Json) (structName : String) : Json :=
  Json.obj [("description", description),
    ("content", Json.obj [("application/json",
      Json.obj [("schema",
        Json.obj [("$ref", Json.str ("#/components/schemas/" ++ structName))])])])]

/-- `_update_method_response(path, method, struct, status_code, paths)`,
translated line by line.  The result is the `paths` value after the call
(the source mutates it in place), the log records emitted, and the exception
the call raises, if any (`none` means a normal return).  An exception is
raised only by the dictionary operations themselves, before any mutation, so
on the exception outcome `paths` is returned unchanged. -/
def update_method_response (path method structName : String) (status_code : Int)
    (paths : Json) : Json × Log × Option PyErr :=
  match pyIndex paths path with
  | Except.error e => (paths, [], some e)
  | Except.ok pathItem =>
    match pyContains pathItem method with
    | Except.error e => (paths, [], some e)
    | Except.ok false => (paths, [LogLevel.debug], none)
    | Except.ok true =>
      match pyIndex pathItem method with
      | Except.error e => (paths, [], some e)
      | Except.ok endpointSchema =>
        match pyGet endpointSchema "responses" (Json.obj []) with
        | Except.error e => (paths, [], some e)
        | Except.ok responses =>
          match pyContains responses (toString status_code) with
          | Except.error e => (paths, [], some e)
          | Except.ok false => (paths, [LogLevel.debug], none)
          | Except.ok true =>
            match pyIndex responses (toString status_code) with
            | Except.error e => (paths, [], some e)
            | Except.ok respEntry =>
              match pyGet respEntry "description" (Json.str "Successful Response") with
              | Except.error e => (paths, [], some e)
              | Except.ok description =>
                match pyIndex endpointSchema "responses" with
                | Except.error e => (paths, [], some e)
                | Except.ok rs =>
                  match pySet rs (toString status_code) (newResponseEntry description structName) with
                  | Except.error e => (paths, [], some e)
                  | Except.ok rs2 =>
                    (jsonStore paths path (jsonStore pathItem method
                      (jsonStore endpointSchema "responses" rs2)),
                      [LogLevel.debug], none)

/-- The `for method in route.methods` loop: each method name is lowercased
and handed to `update_method_response`; an exception raised by one call
aborts the remaining iterations and propagates (the `paths` mutations of the
earlier iterations are kept). -/
def runMethods (path structName : String) (status_code : Int) :
    List String → Json → Json × Log × Option PyErr
  | [], paths => (paths, [], none)
  | m :: rest, paths =>
      match update_method_response path (asciiLower m) structName status_code paths with
      | (p2, l2, some e) => (p2, l2, some e)
      | (p2, l2, none) =>
          match runMethods path structName status_code rest p2 with
          | (p3, l3, err) => (p3, l2 ++ l3, err)

/-- The body of the `try:` block of `update_route_responses` for one route
(the route has already passed the `isinstance`/`endpoint is None` guard).
Returns the `paths` value after the body, the log records emitted, and the
exception that escapes the body, if any. -/
def processRoute (paths : Json) (r : Route) (ep : Endpoint) :
    Json × Log × Option PyErr :=
  match ep.hints with
  | Except.error e => (paths, [], some e)
  | Except.ok hints =>
    match alookup hints "return" with
    | none => (paths, [], none)
    | some returnType =>
      match extract_struct returnType with
      | none => (paths, [], none)
      | some structName =>
        match pyContains paths r.path with
        | Except.error e => (paths, [], some e)
        | Except.ok false => (paths, [LogLevel.debug], none)
        | Except.ok true =>
            runMethods r.path structName (statusOr200 r.status_code) r.methods paths

/-- One iteration of the `for route in app.routes` loop: the guard, the
`try:` body, and the two `except` clauses (`NameError`/`AttributeError` log
at debug level, every other exception at error level; both continue). -/
def handleRoute (paths : Json) (r : Route) : Json × Log :=
  if r.isAPIRoute = false then (paths, []) else
  match r.endpoint with
  | none => (paths, [])
  | some ep =>
      match processRoute paths r ep with
      | (p2, l2, none) => (p2, l2)
      | (p2, l2, some PyErr.nameError) => (p2, l2 ++ [LogLevel.debug])
      | (p2, l2, some PyErr.attributeError) => (p2, l2 ++ [LogLevel.debug])
      | (p2, l2, some _) => (p2, l2 ++ [LogLevel.error])

/-- The whole route loop, threading the `paths` value. -/
def runRoutes : Json → List Route → Json × Log
  | paths, [] => (paths, [])
  | paths, r :: rs =>
      match handleRoute paths r with
      | (p2, l2) =>
          match runRoutes p2 rs with
          | (p3, l3) => (p3, l2 ++ l3)

/-- `update_route_responses(openapi_schema, app)`: `paths` is bound to
`openapi_schema.get("paths", {})` — an alias of the document's `"paths"`
value when the key is present, a fresh empty dictionary otherwise — and the
route loop mutates it in place.  The returned document reflects those
mutations exactly when the key was present. -/
def update_route_responses (openapi_schema : List (String × Json))
    (app_routes : List Route) : List (String × Json) × Log :=
  match alookup openapi_schema "paths" with
  | some paths0 =>
      match runRoutes paths0 app_routes with
      | (paths2, log) => (astore openapi_schema "paths" paths2, log)
  | none =>
      match runRoutes (Json.obj []) app_routes with
      | (_, log) => (openapi_schema, log)

/-- The document after a call, discarding the log. -/
def updatedDoc (openapi_schema : List (String × Json)) (app_routes : List Route) :
    List (String × Json) :=
  (update_route_responses openapi_schema app_routes).1

/-- The value of the path item stored for path `p`. -/
def pathAt (paths : Json) (p : String) : Option Json :=
  match paths with
  | Json.obj pkvs => alookup pkvs p
  | _ => none

/-- The operation object stored for method `m` under path `p`. -/
def methodAt (paths : Json) (p m : String) : Option Json :=
  match pathAt paths p with
  | some (Json.obj mkvs) => alookup mkvs m
  | _ => none

/-- The value of key `k` of the operation object for `(p, m)`. -/
def opKeyAt (paths : Json) (p m k : String) : Option Json :=
  match methodAt paths p m with
  | some (Json.obj okvs) => alookup okvs k
  | _ => none

/-- The response entry stored for status string `s` under `(p, m)`. -/
def respAt (paths : Json) (p m s : String) : Option Json :=
  match opKeyAt paths p m "responses" with
  | some (Json.obj rkvs) => alookup rkvs s
  | _ => none

/-- Field `k` of an optional object value. -/
def entryField (entry : Option Json) (k : String) : Option Json :=
  match entry with
  | some (Json.obj kvs) => alookup kvs k
  | _ => none

/-- The `$ref` string reached through
`responses[s]["content"]["application/json"]["schema"]["$ref"]`. -/
def refAt (paths : Json) (p m s : String) : Option Json :=
  entryField (entryField (entryField (entryField
    (respAt paths p m s) "content") "application/json") "schema") "$ref"

/-- The response entry for `(p, m, s)` seen from the full document. -/
def docRespAt (schema : List (String × Json)) (p m s : String) : Option Json :=
  match alookup schema "paths" with
  | some paths => respAt paths p m s
  | none => none

/-- The `$ref` for `(p, m, s)` seen from the full document. -/
def docRefAt (schema : List (String × Json)) (p m s : String) : Option Json :=
  match alookup schema "paths" with
  | some paths => refAt paths p m s
  | none => none

/-- The description a response entry contributes to the rewritten entry:
its `"description"` value if present, the fixed placeholder otherwise. -/
def descOf (kvs : List (String × Json)) : Json :=
  (alookup kvs "description").getD (Json.str "Successful Response")

/-- The `paths` value written by the success branch of
`_update_method_response`: the response entry at the stringified status is
replaced, rebuilding the spine of objects above it. -/
def writtenPaths (p m n : String) (s : String)
    (pkvs mkvs okvs rkvs : List (String × Json)) (ekvs : List (String × Json)) : Json :=
  Json.obj (astore pkvs p (Json.obj (astore mkvs m (Json.obj (astore okvs "responses"
    (Json.obj (astore rkvs s (newResponseEntry (descOf ekvs) n))))))))

/-- Shape hypotheses under which the success branch fires: the whole chain
down to the response entry consists of dictionaries with the keys present. -/
def writeShape (p m : String) (s : String) (paths : Json)
    (pkvs mkvs okvs rkvs ekvs : List (String × Json)) : Prop :=
  paths = Json.obj pkvs ∧
  alookup pkvs p = some (Json.obj mkvs) ∧
  alookup mkvs m = some (Json.obj okvs) ∧
  alookup okvs "responses" = some (Json.obj rkvs) ∧
  alookup rkvs s = some (Json.obj ekvs)

/-- The path item stored at `P` seen from the full document. -/
def docPathAt (schema : List (String × Json)) (P : String) : Option Json :=
  match alookup schema "paths" with
  | some paths => pathAt paths P
  | none => none

/-- The operation object at `(P, M)` seen from the full document. -/
def docMethodAt (schema : List (String × Json)) (P M : String) : Option Json :=
  match alookup schema "paths" with
  | some paths => methodAt paths P M
  | none => none

/-- Is the value a dictionary? -/
def Json.isObj : Json → Bool
  | Json.obj _ => true
  | _ => false

/-- A well-formed operation object: a dictionary whose `"responses"` value,
when present, is a dictionary of dictionary-valued response entries
(the document shape of the spec). -/
def wfOp (op : Json) : Bool :=
  match op with
  | Json.obj okvs =>
      match alookup okvs "responses" with
      | some (Json.obj rkvs) => rkvs.all (fun kv => kv.2.isObj)
      | some _ => false
      | none => true
  | _ => false

/-- A well-formed path item: a dictionary of well-formed operations. -/
def wfPathItem (pi : Json) : Bool :=
  match pi with
  | Json.obj mkvs => mkvs.all (fun kv => wfOp kv.2)
  | _ => false

/-- A well-formed path map: a dictionary of well-formed path items. -/
def wfPaths (paths : Json) : Bool :=
  match paths with
  | Json.obj pkvs => pkvs.all (fun kv => wfPathItem kv.2)
  | _ => false

/-- A concrete document used by the witnesses: one path, one method, one
documented status. -/
def demoSchema : List (String × Json) :=
  [("paths", Json.obj [("/items", Json.obj [("get", Json.obj
    [("responses", Json.obj [("200", Json.obj [("description", Json.str "OK")])])])])])]

/-- A concrete route used by the witnesses: a `GET /items` handler whose
return annotation resolves to the record type `ItemOut`. -/
def demoRoute : Route :=
  ⟨true, some ⟨"get_items", Except.ok [("return", TypeExpr.record "ItemOut")]⟩,
    "/items", ["GET"], none⟩

/-- The paths value of the witness document. -/
def demoPaths : Json :=
  Json.obj [("/items", Json.obj [("get", Json.obj
    [("responses", Json.obj [("200", Json.obj [("description", Json.str "OK")])])])])]

/-- A route whose handler has an unresolvable forward reference:
`get_type_hints` raises `NameError`. -/
def demoBadRoute : Route :=
  ⟨true, some ⟨"broken", Except.error PyErr.nameError⟩, "/items", ["GET"], none⟩

/-- A route whose handler returns a plain non-record type. -/
def demoPlainRoute : Route :=
  ⟨true, some ⟨"get_text", Except.ok [("return", TypeExpr.plain "str")]⟩,
    "/items", ["GET"], none⟩

/-- A route declaring status code 0 (an integer Python treats as falsy). -/
def zeroRoute : Route :=
  ⟨true, some ⟨"get_z", Except.ok [("return", TypeExpr.record "Z")]⟩,
    "/z", ["GET"], some 0⟩

/-- A paths value documenting both status `"0"` and status `"200"`. -/
def zeroPaths : Json :=
  Json.obj [("/z", Json.obj [("get", Json.obj [("responses",
    Json.obj [("0", Json.obj []), ("200", Json.obj [])])])])]

/-- A route on `/items` whose handler returns record type `A`. -/
def routeA : Route :=
  ⟨true, some ⟨"get_a", Except.ok [("return", TypeExpr.record "A")]⟩,
    "/items", ["GET"], none⟩

/-- A second route on the same `/items` path returning record type `B`. -/
def routeB : Route :=
  ⟨true, some ⟨"get_b", Except.ok [("return", TypeExpr.record "B")]⟩,
    "/items", ["GET"], none⟩

/-- Role indices for the similarity relation: 0 the path map, 1 a path
item, 2 an operation object, 3 a responses map, 4 a response entry; any
other role demands plain equality. -/
def childRole (role : Nat) (k : String) : Nat :=
  if role = 2 then (if k = "responses" then 3 else 5) else role + 1

mutual

/-- Similarity of two states of the path map: identical everywhere except
possibly at response entries, which may be whole different dictionaries as
long as they resolve to the same description.  This is exactly the
divergence a sequence of response rewrites can introduce. -/
def sim : Nat → Json → Json → Bool
  | role, Json.obj xs, Json.obj ys =>
      if role = 4 then decide (descOf xs = descOf ys)
      else if role ≤ 3 then simKVs role xs ys
      else Json.beq (Json.obj xs) (Json.obj ys)
  | _, a, b => Json.beq a b

/-- Pointwise similarity of two association lists: equal keys in order,
values similar at the child role. -/
def simKVs : Nat → List (String × Json) → List (String × Json) → Bool
  | _, [], [] => true
  | role, (k, v) :: xs, (l, w) :: ys =>
      k = l && sim (childRole role k) v w && simKVs role xs ys
  | _, _, _ => false

end

/-- No key occurs twice in the association list. -/
def keysFresh : List (String × Json) → Bool
  | [] => true
  | (k, _) :: rest => rest.all (fun kv => !(kv.1 = k)) && keysFresh rest

/-- The responses map has no duplicate status keys. -/
def respNodup : Json → Bool
  | Json.obj rkvs => keysFresh rkvs
  | _ => true

/-- The operation object has no duplicate keys, nor has its responses map. -/
def opNodup : Json → Bool
  | Json.obj okvs => keysFresh okvs &&
      okvs.all (fun kv => if kv.1 = "responses" then respNodup kv.2 else true)
  | _ => true

/-- The path item has no duplicate keys at any level. -/
def piNodup : Json → Bool
  | Json.obj mkvs => keysFresh mkvs && mkvs.all (fun kv => opNodup kv.2)
  | _ => true

/-- The path map has no duplicate keys at any level down to the responses
maps: the invariant of a tree of Python dictionaries. -/
def pathsNodup : Json → Bool
  | Json.obj pkvs => keysFresh pkvs && pkvs.all (fun kv => piNodup kv.2)
  | _ => true

/-- The path map with the response entry at `(p, m, s)` replaced by `v`,
rebuilding the spine of objects above it. -/
def storeChain (p m s : String) (pkvs mkvs okvs rkvs : List (String × Json))
    (v : Json) : Json :=
  Json.obj (astore pkvs p (Json.obj (astore mkvs m (Json.obj (astore okvs "responses"
    (Json.obj (astore rkvs s v)))))))

/-- The response entry for status `S` seen from a responses value. -/
def respIn3 (rr : Json) (S : String) : Option Json :=
  match rr with
  | Json.obj rkvs => alookup rkvs S
  | _ => none

/-- The response entry for status `S` seen from an operation value. -/
def respIn2 (o : Json) (S : String) : Option Json :=
  match o with
  | Json.obj okvs =>
      (match alookup okvs "responses" with
       | some rr => respIn3 rr S
       | none => none)
  | _ => none

/-- The response entry for `(M, S)` seen from a path-item value. -/
def respIn1 (pi1 : Json) (M S : String) : Option Json :=
  match pi1 with
  | Json.obj mkvs =>
      (match alookup mkvs M with
       | some o => respIn2 o S
       | none => none)
  | _ => none

-- Scratch sanity check: the spec's §8 scenario.
example :
    updatedDoc
      [("paths", Json.obj [("/items", Json.obj [("get", Json.obj
        [("responses", Json.obj [("200", Json.obj [("description", Json.str "OK")])])])])])]
      [⟨true, some ⟨"get_items", Except.ok [("return", TypeExpr.record "ItemOut")]⟩,
        "/items", ["GET"], none⟩] =
      [("paths", Json.obj [("/items", Json.obj [("get", Json.obj
        [("responses", Json.obj [("200", Json.obj [("description", Json.str "OK"),
          ("content", Json.obj [("application/json",
            Json.obj [("schema", Json.obj [("$ref",
              Json.str "#/components/schemas/ItemOut")])])])])])])])])] := by
  decide

theorem alookup_astore_self {α : Type} (kvs : List (String × α)) (k : String) (v : α) :
    alookup (astore kvs k v) k = some v := by
  induction kvs with
  | nil => simp [astore, alookup]
  | cons hd tl ih =>
      obtain ⟨k0, v0⟩ := hd
      by_cases h : k0 = k
      · subst h
        simp [astore, alookup]
      · simp [astore, alookup, h, ih]

theorem alookup_astore_ne {α : Type} (kvs : List (String × α)) (k k2 : String) (v : α)
    (h : k2 ≠ k) : alookup (astore kvs k v) k2 = alookup kvs k2 := by
  induction kvs with
  | nil => simp [astore, alookup, Ne.symm h]
  | cons hd tl ih =>
      obtain ⟨k0, v0⟩ := hd
      by_cases h0 : k0 = k
      · subst h0
        simp [astore, alookup, Ne.symm h]
      · simp only [astore, if_neg h0, alookup]
        by_cases h2 : k0 = k2
        · simp [h2]
        · simp [h2, ih]

theorem astore_self_of_alookup {α : Type} (kvs : List (String × α)) (k : String) (v : α)
    (h : alookup kvs k = some v) : astore kvs k v = kvs := by
  induction kvs with
  | nil => simp [alookup] at h
  | cons hd tl ih =>
      obtain ⟨k0, v0⟩ := hd
      by_cases h0 : k0 = k
      · subst h0
        simp [alookup] at h
        simp [astore, h]
      · simp [alookup, h0] at h
        simp [astore, h0, ih h]

theorem astore_astore_self {α : Type} (kvs : List (String × α)) (k : String) (v w : α) :
    astore (astore kvs k v) k w = astore kvs k w := by
  induction kvs with
  | nil => simp [astore]
  | cons hd tl ih =>
      obtain ⟨k0, v0⟩ := hd
      by_cases h0 : k0 = k
      · subst h0
        simp [astore]
      · simp [astore, h0, ih]

theorem alookup_isSome_astore {α : Type} (kvs : List (String × α)) (k k2 : String) (v : α)
    (h : (alookup kvs k).isSome) :
    (alookup (astore kvs k v) k2).isSome = (alookup kvs k2).isSome := by
  by_cases hk : k2 = k
  · subst hk
    rw [alookup_astore_self]
    simp [Option.isSome] at h ⊢
    obtain ⟨w, hw⟩ := Option.isSome_iff_exists.mp h
    simp [hw]
  · rw [alookup_astore_ne _ _ _ _ hk]

theorem pyIndex_ok (a : Json) (k : String) (v : Json)
    (h : pyIndex a k = Except.ok v) :
    ∃ kvs, a = Json.obj kvs ∧ alookup kvs k = some v := by
  cases a <;> simp [pyIndex] at h
  next kvs =>
    refine ⟨kvs, rfl, ?_⟩
    cases hl : alookup kvs k <;> simp [hl] at h <;> simp [h]

theorem pyGet_ok (a : Json) (k : String) (d v : Json)
    (h : pyGet a k d = Except.ok v) :
    ∃ kvs, a = Json.obj kvs ∧ v = (alookup kvs k).getD d := by
  cases a <;> simp [pyGet] at h
  next kvs => exact ⟨kvs, rfl, h.symm⟩

theorem pySet_ok (a : Json) (k : String) (v w : Json)
    (h : pySet a k v = Except.ok w) :
    ∃ kvs, a = Json.obj kvs ∧ w = Json.obj (astore kvs k v) := by
  cases a <;> simp [pySet] at h
  next kvs => exact ⟨kvs, rfl, h.symm⟩

theorem pyContains_obj_true (kvs : List (String × Json)) (k : String)
    (h : pyContains (Json.obj kvs) k = Except.ok true) :
    (alookup kvs k).isSome := by
  simp [pyContains] at h
  exact h

/-- Every call to `update_method_response` either leaves `paths` unchanged
(the skip and exception branches) or fires the success branch, whose shape
hypotheses and result are explicit. -/
theorem umr_cases (p m n : String) (sc : Int) (paths : Json) :
    (update_method_response p m n sc paths).1 = paths
    ∨ ∃ pkvs mkvs okvs rkvs ekvs,
        writeShape p m (toString sc) paths pkvs mkvs okvs rkvs ekvs ∧
        update_method_response p m n sc paths =
          (writtenPaths p m n (toString sc) pkvs mkvs okvs rkvs ekvs,
            [LogLevel.debug], none) := by
  unfold update_method_response
  repeat' (first | (left; rfl) | split)
  rename_i x5 pathItem hIdx1 x4 hCont1 x3 endpointSchema hIdx2 x2 responses hGet1
    x1 hCont2 x0 respEntry hIdx3 x6 description hGet2 x7 rs hIdx4 x8 rs2 hSet
  right
  obtain ⟨pkvs, hp, hlp⟩ := pyIndex_ok _ _ _ hIdx1
  obtain ⟨mkvs, hm, hlm⟩ := pyIndex_ok _ _ _ hIdx2
  obtain ⟨okvs, ho, hvresp⟩ := pyGet_ok _ _ _ _ hGet1
  obtain ⟨rkvs, hr, hlr⟩ := pyIndex_ok _ _ _ hIdx3
  obtain ⟨ekvs, he, hdesc⟩ := pyGet_ok _ _ _ _ hGet2
  have hkey : alookup okvs "responses" = some (Json.obj rkvs) := by
    cases hk : alookup okvs "responses" with
    | none =>
        rw [hr, hk] at hvresp
        simp [Option.getD] at hvresp
        subst hvresp
        simp [alookup] at hlr
    | some v =>
        rw [hr, hk] at hvresp
        simp [Option.getD] at hvresp
        rw [hvresp]
  rw [ho] at hIdx4
  simp only [pyIndex, hkey, Except.ok.injEq] at hIdx4
  subst hIdx4
  simp only [pySet, Except.ok.injEq] at hSet
  subst hSet
  refine ⟨pkvs, mkvs, okvs, rkvs, ekvs, ⟨hp, ?_, ?_, hkey, ?_⟩, ?_⟩
  · rw [← hm]; exact hlp
  · rw [← ho]; exact hlm
  · rw [← he]; exact hlr
  · have hdd : description = descOf ekvs := hdesc
    rw [hp, hm, ho, hdd]
    simp only [writtenPaths, jsonStore]

/-- Under the shape hypotheses the success branch fires, with the explicit
written result. -/
theorem umr_write (p m n : String) (sc : Int) (paths : Json)
    (pkvs mkvs okvs rkvs ekvs : List (String × Json))
    (h : writeShape p m (toString sc) paths pkvs mkvs okvs rkvs ekvs) :
    update_method_response p m n sc paths =
      (writtenPaths p m n (toString sc) pkvs mkvs okvs rkvs ekvs,
        [LogLevel.debug], none) := by
  obtain ⟨hp, h1, h2, h3, h4⟩ := h
  subst hp
  simp only [update_method_response, pyIndex, pyContains, pyGet, pySet,
    h1, h2, h3, h4, Option.isSome_some, Option.getD_some, writtenPaths, jsonStore, descOf]

/-- The written result holds the new response entry at the written spot. -/
theorem respAt_written_self (p m n : String) (s : String)
    (pkvs mkvs okvs rkvs ekvs : List (String × Json)) :
    respAt (writtenPaths p m n s pkvs mkvs okvs rkvs ekvs) p m s =
      some (newResponseEntry (descOf ekvs) n) := by
  simp [writtenPaths, respAt, opKeyAt, methodAt, pathAt,
    alookup_astore_self]

/-- Everywhere else, the written result looks up exactly as the original. -/
theorem respAt_written_frame (p m n : String) (s : String) (paths : Json)
    (pkvs mkvs okvs rkvs ekvs : List (String × Json))
    (h : writeShape p m s paths pkvs mkvs okvs rkvs ekvs)
    (P M S : String) (hne : ¬ (P = p ∧ M = m ∧ S = s)) :
    respAt (writtenPaths p m n s pkvs mkvs okvs rkvs ekvs) P M S =
      respAt paths P M S := by
  obtain ⟨hp, h1, h2, h3, h4⟩ := h
  subst hp
  by_cases hP : P = p
  · subst hP
    by_cases hM : M = m
    · subst hM
      have hS : S ≠ s := by
        intro hs
        exact hne ⟨rfl, rfl, hs⟩
      simp [writtenPaths, respAt, opKeyAt, methodAt, pathAt,
        alookup_astore_self, alookup_astore_ne _ _ _ _ hS, h1, h2, h3]
    · simp [writtenPaths, respAt, opKeyAt, methodAt, pathAt,
        alookup_astore_self, alookup_astore_ne _ _ _ _ hM, h1]
  · simp [writtenPaths, respAt, opKeyAt, methodAt, pathAt,
      alookup_astore_ne _ _ _ _ hP]

/-- Operation-object keys other than `"responses"` are untouched by a write
at that very operation, and every operation at another `(path, method)` is
untouched wholesale. -/
theorem opKeyAt_written_frame (p m n : String) (s : String) (paths : Json)
    (pkvs mkvs okvs rkvs ekvs : List (String × Json))
    (h : writeShape p m s paths pkvs mkvs okvs rkvs ekvs)
    (P M k : String) (hk : ¬ (P = p ∧ M = m ∧ k = "responses")) :
    opKeyAt (writtenPaths p m n s pkvs mkvs okvs rkvs ekvs) P M k =
      opKeyAt paths P M k := by
  obtain ⟨hp, h1, h2, h3, h4⟩ := h
  subst hp
  by_cases hP : P = p
  · subst hP
    by_cases hM : M = m
    · subst hM
      have hS : k ≠ "responses" := by
        intro hs
        exact hk ⟨rfl, rfl, hs⟩
      simp [writtenPaths, opKeyAt, methodAt, pathAt,
        alookup_astore_self, alookup_astore_ne _ _ _ _ hS, h1, h2]
    · simp [writtenPaths, opKeyAt, methodAt, pathAt,
        alookup_astore_self, alookup_astore_ne _ _ _ _ hM, h1]
  · simp [writtenPaths, opKeyAt, methodAt, pathAt,
      alookup_astore_ne _ _ _ _ hP]

/-- A single `update_method_response` call never creates or removes a path,
method, or status key: presence of every entry is preserved. -/
theorem umr_shape_preserved (p m n : String) (sc : Int) (paths : Json)
    (P M S : String) :
    (pathAt (update_method_response p m n sc paths).1 P).isSome
        = (pathAt paths P).isSome
    ∧ (methodAt (update_method_response p m n sc paths).1 P M).isSome
        = (methodAt paths P M).isSome
    ∧ (respAt (update_method_response p m n sc paths).1 P M S).isSome
        = (respAt paths P M S).isSome := by
  rcases umr_cases p m n sc paths with h | ⟨pkvs, mkvs, okvs, rkvs, ekvs, hs, heq⟩
  · rw [h]
    exact ⟨rfl, rfl, rfl⟩
  · obtain ⟨hp, h1, h2, h3, h4⟩ := hs
    rw [heq]
    subst hp
    refine ⟨?_, ?_, ?_⟩
    · simp only [writtenPaths, pathAt]
      exact alookup_isSome_astore _ _ _ _ (by simp [h1])
    · by_cases hP : P = p
      · subst hP
        simp only [writtenPaths, methodAt, pathAt, alookup_astore_self, h1]
        exact alookup_isSome_astore _ _ _ _ (by simp [h2])
      · simp only [writtenPaths, methodAt, pathAt,
          alookup_astore_ne _ _ _ _ hP]
    · by_cases hT : P = p ∧ M = m ∧ S = toString sc
      · obtain ⟨rfl, rfl, rfl⟩ := hT
        rw [respAt_written_self]
        simp [respAt, opKeyAt, methodAt, pathAt, h1, h2, h3, h4]
      · rw [respAt_written_frame p m n (toString sc) (Json.obj pkvs)
          pkvs mkvs okvs rkvs ekvs ⟨rfl, h1, h2, h3, h4⟩ P M S hT]

/-- The methods loop preserves key presence at every level. -/
theorem runMethods_shape_preserved (path n : String) (sc : Int)
    (ms : List String) (paths : Json) (P M S : String) :
    (pathAt (runMethods path n sc ms paths).1 P).isSome
        = (pathAt paths P).isSome
    ∧ (methodAt (runMethods path n sc ms paths).1 P M).isSome
        = (methodAt paths P M).isSome
    ∧ (respAt (runMethods path n sc ms paths).1 P M S).isSome
        = (respAt paths P M S).isSome := by
  induction ms generalizing paths with
  | nil => exact ⟨rfl, rfl, rfl⟩
  | cons m rest ih =>
      simp only [runMethods]
      cases hc : update_method_response path (asciiLower m) n sc paths with
      | mk p2 rest2 =>
          obtain ⟨l2, err⟩ := rest2
          have h1 := umr_shape_preserved path (asciiLower m) n sc paths P M S
          rw [hc] at h1
          cases err with
          | some e =>
              simpa using h1
          | none =>
              have h2 := ih p2
              cases hr : runMethods path n sc rest p2 with
              | mk p3 l3 =>
                  rw [hr] at h2
                  simp only [hr]
                  simp only at h1 h2 ⊢
                  exact ⟨h2.1.trans h1.1, h2.2.1.trans h1.2.1, h2.2.2.trans h1.2.2⟩

/-- The `try:` body either returns with `paths` untouched (resolution
failure, missing annotation, non-record type, path absent) or hands over to
the methods loop with the extracted record name and effective status. -/
theorem processRoute_cases (paths : Json) (r : Route) (ep : Endpoint) :
    (∃ l e, processRoute paths r ep = (paths, l, e))
    ∨ ∃ n, processRoute paths r ep =
        runMethods r.path n (statusOr200 r.status_code) r.methods paths := by
  unfold processRoute
  repeat' (first | (left; exact ⟨_, _, rfl⟩) | split)
  right
  exact ⟨_, rfl⟩

/-- One whole route iteration either leaves `paths` untouched or produces
the methods-loop result for the extracted record name. -/
theorem handleRoute_cases (paths : Json) (r : Route) :
    (handleRoute paths r).1 = paths
    ∨ ∃ n, (handleRoute paths r).1 =
        (runMethods r.path n (statusOr200 r.status_code) r.methods paths).1 := by
  unfold handleRoute
  split
  · left; rfl
  split
  · left; rfl
  next ep hep =>
    rcases processRoute_cases paths r ep with ⟨l, e, hpc⟩ | ⟨n, hpc⟩
    · rw [hpc]
      left
      cases e with
      | none => rfl
      | some pe => cases pe <;> rfl
    · rw [hpc]
      right
      refine ⟨n, ?_⟩
      cases hr : runMethods r.path n (statusOr200 r.status_code) r.methods paths with
      | mk p2 rest2 =>
          obtain ⟨l2, err⟩ := rest2
          cases err with
          | none => rfl
          | some pe => cases pe <;> rfl

/-- One whole route iteration preserves key presence at every level. -/
theorem handleRoute_shape_preserved (r : Route) (paths : Json) (P M S : String) :
    (pathAt (handleRoute paths r).1 P).isSome = (pathAt paths P).isSome
    ∧ (methodAt (handleRoute paths r).1 P M).isSome = (methodAt paths P M).isSome
    ∧ (respAt (handleRoute paths r).1 P M S).isSome = (respAt paths P M S).isSome := by
  rcases handleRoute_cases paths r with h | ⟨n, h⟩
  · rw [h]
    exact ⟨rfl, rfl, rfl⟩
  · rw [h]
    exact runMethods_shape_preserved r.path n (statusOr200 r.status_code) r.methods paths P M S

/-- The whole route loop preserves key presence at every level. -/
theorem runRoutes_shape_preserved (rs : List Route) (paths : Json) (P M S : String) :
    (pathAt (runRoutes paths rs).1 P).isSome = (pathAt paths P).isSome
    ∧ (methodAt (runRoutes paths rs).1 P M).isSome = (methodAt paths P M).isSome
    ∧ (respAt (runRoutes paths rs).1 P M S).isSome = (respAt paths P M S).isSome := by
  induction rs generalizing paths with
  | nil => exact ⟨rfl, rfl, rfl⟩
  | cons r rest ih =>
      simp only [runRoutes]
      cases hh : handleRoute paths r with
      | mk p2 l2 =>
          have h1 := handleRoute_shape_preserved r paths P M S
          rw [hh] at h1
          have h2 := ih p2
          cases hr : runRoutes p2 rest with
          | mk p3 l3 =>
              rw [hr] at h2
              simp only [hr]
              simp only at h1 h2 ⊢
              exact ⟨h2.1.trans h1.1, h2.2.1.trans h1.2.1, h2.2.2.trans h1.2.2⟩

theorem processRoute_hints_error (paths : Json) (r : Route) (ep : Endpoint)
    (e : PyErr) (hh : ep.hints = Except.error e) :
    processRoute paths r ep = (paths, [], some e) := by
  simp [processRoute, hh]

theorem processRoute_no_return (paths : Json) (r : Route) (ep : Endpoint)
    (hints : List (String × TypeExpr)) (hh : ep.hints = Except.ok hints)
    (h0 : alookup hints "return" = none) :
    processRoute paths r ep = (paths, [], none) := by
  simp [processRoute, hh, h0]

theorem processRoute_no_struct (paths : Json) (r : Route) (ep : Endpoint)
    (hints : List (String × TypeExpr)) (rt : TypeExpr)
    (hh : ep.hints = Except.ok hints)
    (h1 : alookup hints "return" = some rt) (h2 : extract_struct rt = none) :
    processRoute paths r ep = (paths, [], none) := by
  simp [processRoute, hh, h1, h2]

/-- C9: if the document has no top-level `"paths"` key,
`update_route_responses` completes without raising and leaves the document
entirely unchanged, for every route table. -/
theorem missing_paths_key_unchanged (schema : List (String × Json)) (rs : List Route)
    (h : alookup schema "paths" = none) :
    (update_route_responses schema rs).1 = schema := by
  unfold update_route_responses
  rw [h]

theorem missing_paths_key_unchanged_witness :
    alookup ([("openapi", Json.str "3.1.0")]) "paths" = none ∧
    (update_route_responses [("openapi", Json.str "3.1.0")] [demoRoute]).1 =
      [("openapi", Json.str "3.1.0")] :=
  ⟨rfl, missing_paths_key_unchanged _ [demoRoute] rfl⟩

/-- C6: a route whose handler's type annotations cannot be resolved (the
`NameError` of a dangling forward reference) leaves the `paths` value — and
hence every document entry — unchanged, does not raise, and emits exactly
one debug-level log record. -/
theorem unresolvable_hints_skip_debug (paths : Json) (r : Route) (ep : Endpoint)
    (hA : r.isAPIRoute = true) (hep : r.endpoint = some ep)
    (hh : ep.hints = Except.error PyErr.nameError) :
    handleRoute paths r = (paths, [LogLevel.debug]) := by
  have hpr := processRoute_hints_error paths r ep PyErr.nameError hh
  simp [handleRoute, hA, hep, hpr]

theorem unresolvable_hints_skip_debug_witness :
    demoBadRoute.isAPIRoute = true ∧
    handleRoute demoPaths demoBadRoute = (demoPaths, [LogLevel.debug]) :=
  ⟨rfl, unresolvable_hints_skip_debug demoPaths demoBadRoute _ rfl rfl rfl⟩

/-- C8: a route whose resolved return annotation is absent, or does not
extract to a record type, leaves the `paths` value — and hence all of the
route's response entries — unchanged (and emits no log records). -/
theorem non_struct_return_leaves_doc (paths : Json) (r : Route) (ep : Endpoint)
    (hints : List (String × TypeExpr))
    (hA : r.isAPIRoute = true) (hep : r.endpoint = some ep)
    (hh : ep.hints = Except.ok hints)
    (hret : alookup hints "return" = none ∨
      ∃ rt, alookup hints "return" = some rt ∧ extract_struct rt = none) :
    handleRoute paths r = (paths, []) := by
  rcases hret with h0 | ⟨rt, h1, h2⟩
  · have hpr := processRoute_no_return paths r ep hints hh h0
    simp [handleRoute, hA, hep, hpr]
  · have hpr := processRoute_no_struct paths r ep hints rt hh h1 h2
    simp [handleRoute, hA, hep, hpr]

theorem non_struct_return_leaves_doc_witness :
    extract_struct (TypeExpr.plain "str") = none ∧
    handleRoute demoPaths demoPlainRoute = (demoPaths, []) :=
  ⟨rfl, non_struct_return_leaves_doc demoPaths demoPlainRoute _ _ rfl rfl rfl
    (Or.inr ⟨TypeExpr.plain "str", rfl, rfl⟩)⟩

/-- C5: when a `(path, method, status)` response entry is overwritten, the
existing `"description"` value is preserved when present (the fixed default
`"Successful Response"` otherwise) and the content becomes a single
`"application/json"` entry whose schema is a `$ref` keyed by the record
type's name. -/
theorem update_overwrite_preserves_description
    (p m n : String) (sc : Int) (paths : Json)
    (pkvs mkvs okvs rkvs ekvs : List (String × Json))
    (h : writeShape p m (toString sc) paths pkvs mkvs okvs rkvs ekvs) :
    respAt (update_method_response p m n sc paths).1 p m (toString sc) =
      some (Json.obj
        [("description", (alookup ekvs "description").getD (Json.str "Successful Response")),
         ("content", Json.obj [("application/json", Json.obj [("schema",
            Json.obj [("$ref", Json.str ("#/components/schemas/" ++ n))])])])]) := by
  rw [umr_write p m n sc paths pkvs mkvs okvs rkvs ekvs h]
  simpa [newResponseEntry, descOf] using
    respAt_written_self p m n (toString sc) pkvs mkvs okvs rkvs ekvs

theorem update_overwrite_preserves_description_witness :
    writeShape "/items" "get" (toString (200 : Int)) demoPaths
      [("/items", Json.obj [("get", Json.obj
        [("responses", Json.obj [("200", Json.obj [("description", Json.str "OK")])])])])]
      [("get", Json.obj [("responses", Json.obj [("200",
        Json.obj [("description", Json.str "OK")])])])]
      [("responses", Json.obj [("200", Json.obj [("description", Json.str "OK")])])]
      [("200", Json.obj [("description", Json.str "OK")])]
      [("description", Json.str "OK")] ∧
    respAt (update_method_response "/items" "get" "ItemOut" 200 demoPaths).1
        "/items" "get" (toString (200 : Int)) =
      some (Json.obj
        [("description", (alookup [("description", Json.str "OK")] "description").getD
            (Json.str "Successful Response")),
         ("content", Json.obj [("application/json", Json.obj [("schema",
            Json.obj [("$ref", Json.str ("#/components/schemas/" ++ "ItemOut"))])])])]) :=
  ⟨by unfold writeShape; decide,
    update_overwrite_preserves_description "/items" "get" "ItemOut" 200 demoPaths
      [("/items", Json.obj [("get", Json.obj
        [("responses", Json.obj [("200", Json.obj [("description", Json.str "OK")])])])])]
      [("get", Json.obj [("responses", Json.obj [("200",
        Json.obj [("description", Json.str "OK")])])])]
      [("responses", Json.obj [("200", Json.obj [("description", Json.str "OK")])])]
      [("200", Json.obj [("description", Json.str "OK")])]
      [("description", Json.str "OK")]
      (by unfold writeShape; decide)⟩

/-- C10: a single `update_method_response` call can change at most the one
response entry for the selected stringified status code: every other key of
the operation object and every other status entry under that path and
method is left unchanged. -/
theorem update_mutates_only_status_entry
    (p m n : String) (sc : Int) (paths : Json) (P M k S : String) :
    (¬(P = p ∧ M = m ∧ k = "responses") →
       opKeyAt (update_method_response p m n sc paths).1 P M k = opKeyAt paths P M k)
    ∧ (¬(P = p ∧ M = m ∧ S = toString sc) →
       respAt (update_method_response p m n sc paths).1 P M S = respAt paths P M S) := by
  rcases umr_cases p m n sc paths with h | ⟨pkvs, mkvs, okvs, rkvs, ekvs, hs, heq⟩
  · rw [h]
    exact ⟨fun _ => rfl, fun _ => rfl⟩
  · rw [heq]
    constructor
    · intro hk
      exact opKeyAt_written_frame p m n (toString sc) paths pkvs mkvs okvs rkvs ekvs hs P M k hk
    · intro hS
      exact respAt_written_frame p m n (toString sc) paths pkvs mkvs okvs rkvs ekvs hs P M S hS

theorem update_mutates_only_status_entry_witness :
    opKeyAt (update_method_response "/items" "get" "ItemOut" 200 demoPaths).1
        "/items" "get" "parameters" = opKeyAt demoPaths "/items" "get" "parameters" ∧
    respAt (update_method_response "/items" "get" "ItemOut" 200 demoPaths).1
        "/items" "get" "404" = respAt demoPaths "/items" "get" "404" :=
  ⟨(update_mutates_only_status_entry "/items" "get" "ItemOut" 200 demoPaths
      "/items" "get" "parameters" "404").1 (by decide),
   (update_mutates_only_status_entry "/items" "get" "ItemOut" 200 demoPaths
      "/items" "get" "parameters" "404").2 (by decide)⟩

/-- C4: `update_route_responses` never lets an exception escape: the route
loop is a total function that always continues with the next route (first
conjunct, the loop equation); an unexpected exception raised while
processing one route (any class other than the `NameError`/`AttributeError`
handled at debug level) is caught and logged at error level, after which the
state so far is kept and the loop goes on (second conjunct); the two
expected classes are caught and logged at debug level (third conjunct). -/
theorem update_attempts_all_routes_and_catches
    (paths : Json) (r : Route) (rs : List Route) :
    runRoutes paths (r :: rs) =
      ((runRoutes (handleRoute paths r).1 rs).1,
        (handleRoute paths r).2 ++ (runRoutes (handleRoute paths r).1 rs).2)
    ∧ (∀ ep p2 l2 e, r.isAPIRoute = true → r.endpoint = some ep →
        processRoute paths r ep = (p2, l2, some e) →
        e ≠ PyErr.nameError → e ≠ PyErr.attributeError →
        handleRoute paths r = (p2, l2 ++ [LogLevel.error]))
    ∧ (∀ ep p2 l2 e, r.isAPIRoute = true → r.endpoint = some ep →
        processRoute paths r ep = (p2, l2, some e) →
        (e = PyErr.nameError ∨ e = PyErr.attributeError) →
        handleRoute paths r = (p2, l2 ++ [LogLevel.debug])) := by
  refine ⟨?_, ?_, ?_⟩
  · simp only [runRoutes]
  · intro ep p2 l2 e hA hep hpr hne hna
    cases e with
    | nameError => exact absurd rfl hne
    | attributeError => exact absurd rfl hna
    | typeError => simp [handleRoute, hA, hep, hpr]
    | keyError => simp [handleRoute, hA, hep, hpr]
    | otherError => simp [handleRoute, hA, hep, hpr]
  · intro ep p2 l2 e hA hep hpr hcl
    rcases hcl with rfl | rfl <;> simp [handleRoute, hA, hep, hpr]

theorem update_attempts_all_routes_and_catches_witness :
    runRoutes demoPaths [demoBadRoute, demoRoute] =
      ((runRoutes (handleRoute demoPaths demoBadRoute).1 [demoRoute]).1,
        (handleRoute demoPaths demoBadRoute).2 ++
          (runRoutes (handleRoute demoPaths demoBadRoute).1 [demoRoute]).2) ∧
    handleRoute demoPaths demoBadRoute =
      (demoPaths, [] ++ [LogLevel.debug]) :=
  ⟨(update_attempts_all_routes_and_catches demoPaths demoBadRoute [demoRoute]).1,
   (update_attempts_all_routes_and_catches demoPaths demoBadRoute [demoRoute]).2.2
     ⟨"broken", Except.error PyErr.nameError⟩ demoPaths [] PyErr.nameError
     rfl rfl rfl (Or.inl rfl)⟩

/-- C3: `update_route_responses` never creates new keys in the document: a
path, method, or stringified-status entry present after the update was
already present before, for every document and route table. -/
theorem update_route_responses_no_new_entries
    (schema : List (String × Json)) (rs : List Route) (P M S : String) :
    ((docPathAt (updatedDoc schema rs) P).isSome → (docPathAt schema P).isSome)
    ∧ ((docMethodAt (updatedDoc schema rs) P M).isSome → (docMethodAt schema P M).isSome)
    ∧ ((docRespAt (updatedDoc schema rs) P M S).isSome → (docRespAt schema P M S).isSome) := by
  unfold updatedDoc update_route_responses
  cases h : alookup schema "paths" with
  | none =>
      simp only [docPathAt, docMethodAt, docRespAt, h]
      exact ⟨id, id, id⟩
  | some paths0 =>
      cases hr : runRoutes paths0 rs with
      | mk f log =>
          have hshape := runRoutes_shape_preserved rs paths0 P M S
          rw [hr] at hshape
          simp only at hshape
          simp only [docPathAt, docMethodAt, docRespAt, h, alookup_astore_self, hr]
          rw [hshape.1, hshape.2.1, hshape.2.2]
          exact ⟨id, id, id⟩

theorem update_route_responses_no_new_entries_witness :
    (docRespAt (updatedDoc demoSchema [demoRoute]) "/items" "get" "200").isSome = true ∧
    (docRespAt demoSchema "/items" "get" "200").isSome = true :=
  ⟨by decide,
    (update_route_responses_no_new_entries demoSchema [demoRoute] "/items" "get" "200").2.2
      (by decide)⟩

/-- A single method update can change the response map only at its own
`(path, method, stringified status)` triple. -/
theorem umr_change (p m n : String) (sc : Int) (paths : Json) (P M S : String)
    (h : respAt (update_method_response p m n sc paths).1 P M S ≠ respAt paths P M S) :
    P = p ∧ M = m ∧ S = toString sc := by
  rcases umr_cases p m n sc paths with hu | ⟨pkvs, mkvs, okvs, rkvs, ekvs, hs, heq⟩
  · rw [hu] at h
    exact absurd rfl h
  · rw [heq] at h
    by_contra hc
    exact h (respAt_written_frame p m n (toString sc) paths pkvs mkvs okvs rkvs ekvs hs P M S hc)

/-- The methods loop can change the response map only at the route's path
and stringified status. -/
theorem runMethods_change (path n : String) (sc : Int) (ms : List String)
    (paths : Json) (P M S : String)
    (h : respAt (runMethods path n sc ms paths).1 P M S ≠ respAt paths P M S) :
    P = path ∧ S = toString sc := by
  induction ms generalizing paths with
  | nil => exact absurd rfl h
  | cons m rest ih =>
      rw [runMethods] at h
      rcases hc : update_method_response path (asciiLower m) n sc paths with ⟨p2, l2, err⟩
      rw [hc] at h
      cases err with
      | some e =>
          simp only at h
          have hstep : respAt p2 P M S ≠ respAt paths P M S := h
          have := umr_change path (asciiLower m) n sc paths P M S (by rw [hc]; exact hstep)
          exact ⟨this.1, this.2.2⟩
      | none =>
          simp only at h
          rcases hr : runMethods path n sc rest p2 with ⟨p3, l3, err2⟩
          rw [hr] at h
          simp only at h
          by_cases h2 : respAt p3 P M S = respAt p2 P M S
          · have hstep : respAt p2 P M S ≠ respAt paths P M S := by
              rw [← h2]; exact h
            have := umr_change path (asciiLower m) n sc paths P M S (by rw [hc]; exact hstep)
            exact ⟨this.1, this.2.2⟩
          · have := ih p2 (by rw [hr]; exact h2)
            exact this

/-- One route iteration can change the response map only at the route's own
path and at the stringified effective status code. -/
theorem handleRoute_change (r : Route) (paths : Json) (P M S : String)
    (h : respAt (handleRoute paths r).1 P M S ≠ respAt paths P M S) :
    P = r.path ∧ S = toString (statusOr200 r.status_code) := by
  rcases handleRoute_cases paths r with hu | ⟨n, heq⟩
  · rw [hu] at h
    exact absurd rfl h
  · rw [heq] at h
    exact runMethods_change r.path n (statusOr200 r.status_code) r.methods paths P M S h

/-- C7 (amended): the status code used to select the response entry is the
route's declared status code when it is set and nonzero, and 200 when it is
unset or 0 (Python's `or` takes the default on the falsy integer 0); the
only response key a route's processing can overwrite is the stringified
form of that effective status code, at the route's own path. -/
theorem effective_status_selects_entry (r : Route) (paths : Json) (P M S : String)
    (h : respAt (handleRoute paths r).1 P M S ≠ respAt paths P M S) :
    P = r.path ∧ S = toString (statusOr200 r.status_code) :=
  handleRoute_change r paths P M S h

theorem effective_status_selects_entry_witness :
    respAt (handleRoute demoPaths demoRoute).1 "/items" "get" "200" ≠
      respAt demoPaths "/items" "get" "200" ∧
    ("/items" = demoRoute.path ∧ "200" = toString (statusOr200 demoRoute.status_code)) :=
  ⟨by decide,
    effective_status_selects_entry demoRoute demoPaths "/items" "get" "200" (by decide)⟩

/-- C7 counterexample: a route with declared status code 0 (which is set)
does not select the documented `"0"` entry — that entry is left untouched —
and overwrites the `"200"` entry instead, because `status_code or 200`
discards the falsy integer 0. -/
theorem declared_status_zero_not_selected :
    zeroRoute.status_code = some 0 ∧
    (respAt zeroPaths "/z" "get" "0").isSome = true ∧
    respAt (handleRoute zeroPaths zeroRoute).1 "/z" "get" "0" =
      respAt zeroPaths "/z" "get" "0" ∧
    respAt (handleRoute zeroPaths zeroRoute).1 "/z" "get" "200" ≠
      respAt zeroPaths "/z" "get" "200" := by
  refine ⟨rfl, by decide, by decide, by decide⟩

theorem alookup_mem {α : Type} (kvs : List (String × α)) (k : String) (v : α)
    (h : alookup kvs k = some v) : (k, v) ∈ kvs := by
  induction kvs with
  | nil => simp [alookup] at h
  | cons hd tl ih =>
      obtain ⟨k0, v0⟩ := hd
      by_cases h0 : k0 = k
      · subst h0
        simp [alookup] at h
        simp [h]
      · simp [alookup, h0] at h
        simp [ih h]

theorem all_astore (P : Json → Bool) (kvs : List (String × Json)) (k : String) (v : Json)
    (hall : kvs.all (fun kv => P kv.2) = true) (hv : P v = true) :
    (astore kvs k v).all (fun kv => P kv.2) = true := by
  induction kvs with
  | nil => simp [astore, hv]
  | cons hd tl ih =>
      obtain ⟨k0, v0⟩ := hd
      simp only [List.all_cons, Bool.and_eq_true] at hall
      by_cases h0 : k0 = k
      · subst h0
        simp [astore, hv, hall.2]
      · simp only [astore, if_neg h0, List.all_cons, Bool.and_eq_true]
        exact ⟨hall.1, ih hall.2⟩

/-- A write preserves well-formedness of the path map. -/
theorem umr_wf (p m n : String) (sc : Int) (paths : Json)
    (hwf : wfPaths paths = true) :
    wfPaths (update_method_response p m n sc paths).1 = true := by
  rcases umr_cases p m n sc paths with hu | ⟨pkvs, mkvs, okvs, rkvs, ekvs, hs, heq⟩
  · rw [hu]; exact hwf
  · rw [heq]
    obtain ⟨hp, h1, h2, h3, h4⟩ := hs
    subst hp
    simp only [wfPaths] at hwf
    have hmem1 := alookup_mem _ _ _ h1
    have hwfpi : wfPathItem (Json.obj mkvs) = true := by
      have := List.all_eq_true.mp hwf _ hmem1
      exact this
    simp only [wfPathItem] at hwfpi
    have hmem2 := alookup_mem _ _ _ h2
    have hwfop : wfOp (Json.obj okvs) = true := List.all_eq_true.mp hwfpi _ hmem2
    simp only [wfOp, h3] at hwfop
    simp only [writtenPaths, wfPaths]
    refine all_astore _ _ _ _ hwf ?_
    simp only [wfPathItem]
    refine all_astore _ _ _ _ hwfpi ?_
    simp only [wfOp, alookup_astore_self]
    refine all_astore _ _ _ _ hwfop ?_
    simp [newResponseEntry, Json.isObj]

theorem wfPathItem_obj (pi : Json) (h : wfPathItem pi = true) :
    ∃ mkvs, pi = Json.obj mkvs ∧ mkvs.all (fun kv => wfOp kv.2) = true := by
  cases pi <;> simp [wfPathItem] at h
  next mkvs => exact ⟨mkvs, rfl, by simpa [wfPathItem]⟩

theorem wfOp_obj (op : Json) (h : wfOp op = true) :
    ∃ okvs, op = Json.obj okvs := by
  cases op <;> simp [wfOp] at h
  next okvs => exact ⟨okvs, rfl⟩

theorem wfPaths_pi (pkvs : List (String × Json)) (p : String) (pi : Json)
    (hwf : wfPaths (Json.obj pkvs) = true) (h : alookup pkvs p = some pi) :
    wfPathItem pi = true := by
  simp only [wfPaths] at hwf
  exact List.all_eq_true.mp hwf _ (alookup_mem _ _ _ h)

theorem wfPI_op (mkvs : List (String × Json)) (m : String) (op : Json)
    (hwf : wfPathItem (Json.obj mkvs) = true) (h : alookup mkvs m = some op) :
    wfOp op = true := by
  simp only [wfPathItem] at hwf
  exact List.all_eq_true.mp hwf _ (alookup_mem _ _ _ h)

theorem wfOp_responses (okvs : List (String × Json)) (rr : Json)
    (hwf : wfOp (Json.obj okvs) = true) (h : alookup okvs "responses" = some rr) :
    ∃ rkvs, rr = Json.obj rkvs ∧ rkvs.all (fun kv => kv.2.isObj) = true := by
  simp only [wfOp, h] at hwf
  cases rr <;> simp at hwf
  next rkvs => exact ⟨rkvs, rfl, by simpa⟩

theorem entry_obj (rkvs : List (String × Json)) (s : String) (v : Json)
    (hall : rkvs.all (fun kv => kv.2.isObj) = true) (h : alookup rkvs s = some v) :
    ∃ ekvs, v = Json.obj ekvs := by
  have := List.all_eq_true.mp hall _ (alookup_mem _ _ _ h)
  cases v <;> simp [Json.isObj] at this
  next ekvs => exact ⟨ekvs, rfl⟩

/-- On a well-formed path map whose path key is present the method update
never raises: every branch returns normally. -/
theorem umr_no_error (p m n : String) (sc : Int) (paths : Json)
    (hwf : wfPaths paths = true) (hp : (pathAt paths p).isSome = true) :
    (update_method_response p m n sc paths).2.2 = none := by
  cases paths with
  | obj pkvs =>
      simp only [pathAt] at hp
      cases hlp : alookup pkvs p with
      | none => rw [hlp] at hp; simp at hp
      | some pi =>
          obtain ⟨mkvs, rfl, hallop⟩ := wfPathItem_obj pi (wfPaths_pi pkvs p pi hwf hlp)
          cases hcm : alookup mkvs m with
          | none =>
              simp [update_method_response, pyIndex, pyContains, hlp, hcm]
          | some op =>
              obtain ⟨okvs, rfl⟩ := wfOp_obj op
                (wfPI_op mkvs m op (by simpa [wfPathItem] using hallop) hcm)
              have hwfop : wfOp (Json.obj okvs) = true :=
                wfPI_op mkvs m _ (by simpa [wfPathItem] using hallop) hcm
              cases hlo : alookup okvs "responses" with
              | none =>
                  simp [update_method_response, pyIndex, pyContains, pyGet,
                    hlp, hcm, hlo, alookup]
              | some rr =>
                  obtain ⟨rkvs, rfl, hallent⟩ := wfOp_responses okvs rr hwfop hlo
                  cases hlr : alookup rkvs (toString sc) with
                  | none =>
                      simp [update_method_response, pyIndex, pyContains, pyGet,
                        hlp, hcm, hlo, hlr]
                  | some v =>
                      obtain ⟨ekvs, rfl⟩ := entry_obj rkvs (toString sc) v hallent hlr
                      simp [update_method_response, pyIndex, pyContains, pyGet, pySet,
                        hlp, hcm, hlo, hlr]
  | null => simp [wfPaths] at hwf
  | bool b => simp [wfPaths] at hwf
  | num i => simp [wfPaths] at hwf
  | str s => simp [wfPaths] at hwf
  | arr xs => simp [wfPaths] at hwf

/-- On a well-formed path map an `isSome` response entry yields the full
write shape (every level is a dictionary with the key present). -/
theorem respAt_isSome_writeShape (p m s : String) (paths : Json)
    (hwf : wfPaths paths = true)
    (hs : (respAt paths p m s).isSome = true) :
    ∃ pkvs mkvs okvs rkvs ekvs, writeShape p m s paths pkvs mkvs okvs rkvs ekvs := by
  cases paths with
  | obj pkvs =>
      cases hlp : alookup pkvs p with
      | none => simp [respAt, opKeyAt, methodAt, pathAt, hlp] at hs
      | some pi =>
          obtain ⟨mkvs, rfl, hallop⟩ := wfPathItem_obj pi (wfPaths_pi pkvs p pi hwf hlp)
          cases hcm : alookup mkvs m with
          | none => simp [respAt, opKeyAt, methodAt, pathAt, hlp, hcm] at hs
          | some op =>
              obtain ⟨okvs, rfl⟩ := wfOp_obj op
                (wfPI_op mkvs m op (by simpa [wfPathItem] using hallop) hcm)
              have hwfop : wfOp (Json.obj okvs) = true :=
                wfPI_op mkvs m _ (by simpa [wfPathItem] using hallop) hcm
              cases hlo : alookup okvs "responses" with
              | none => simp [respAt, opKeyAt, methodAt, pathAt, hlp, hcm, hlo] at hs
              | some rr =>
                  obtain ⟨rkvs, rfl, hallent⟩ := wfOp_responses okvs rr hwfop hlo
                  cases hlr : alookup rkvs s with
                  | none =>
                      simp [respAt, opKeyAt, methodAt, pathAt, hlp, hcm, hlo, hlr] at hs
                  | some v =>
                      obtain ⟨ekvs, rfl⟩ := entry_obj rkvs s v hallent hlr
                      exact ⟨pkvs, mkvs, okvs, rkvs, ekvs, rfl, hlp, hcm, hlo, hlr⟩
  | null => simp [respAt, opKeyAt, methodAt, pathAt] at hs
  | bool b => simp [respAt, opKeyAt, methodAt, pathAt] at hs
  | num i => simp [respAt, opKeyAt, methodAt, pathAt] at hs
  | str s2 => simp [respAt, opKeyAt, methodAt, pathAt] at hs
  | arr xs => simp [respAt, opKeyAt, methodAt, pathAt] at hs

theorem respAt_of_writeShape (p m s : String) (paths : Json)
    (pkvs mkvs okvs rkvs ekvs : List (String × Json))
    (h : writeShape p m s paths pkvs mkvs okvs rkvs ekvs) :
    respAt paths p m s = some (Json.obj ekvs) := by
  obtain ⟨hp, h1, h2, h3, h4⟩ := h
  subst hp
  simp [respAt, opKeyAt, methodAt, pathAt, h1, h2, h3, h4]

theorem descOf_of_newResponseEntry (ekvs : List (String × Json)) (d : Json) (n : String)
    (h : Json.obj ekvs = newResponseEntry d n) : descOf ekvs = d := by
  simp only [newResponseEntry, Json.obj.injEq] at h
  subst h
  simp [descOf, alookup]

/-- A method update never destroys an already-written response entry for
record name `n`: it is either untouched or rewritten to the same value. -/
theorem umr_keep (p m n : String) (sc : Int) (x : Json) (P M S : String) (d : Json)
    (hv : respAt x P M S = some (newResponseEntry d n)) :
    respAt (update_method_response p m n sc x).1 P M S =
      some (newResponseEntry d n) := by
  rcases umr_cases p m n sc x with hu | ⟨pkvs, mkvs, okvs, rkvs, ekvs, hs, heq⟩
  · rw [hu]; exact hv
  · rw [heq]
    by_cases ht : P = p ∧ M = m ∧ S = toString sc
    · obtain ⟨rfl, rfl, rfl⟩ := ht
      have hv2 := respAt_of_writeShape P M (toString sc) x pkvs mkvs okvs rkvs ekvs hs
      rw [hv] at hv2
      have hd : descOf ekvs = d :=
        descOf_of_newResponseEntry ekvs d n (Option.some.inj hv2).symm
      have := respAt_written_self P M n (toString sc) pkvs mkvs okvs rkvs ekvs
      rw [hd] at this
      exact this
    · rw [respAt_written_frame p m n (toString sc) x pkvs mkvs okvs rkvs ekvs hs P M S ht]
      exact hv

/-- The methods loop never destroys an already-written response entry for
its own record name. -/
theorem runMethods_keep (path n : String) (sc : Int) (ms : List String)
    (x : Json) (P M S : String) (d : Json)
    (hv : respAt x P M S = some (newResponseEntry d n)) :
    respAt (runMethods path n sc ms x).1 P M S = some (newResponseEntry d n) := by
  induction ms generalizing x with
  | nil => exact hv
  | cons m rest ih =>
      rw [runMethods]
      rcases hc : update_method_response path (asciiLower m) n sc x with ⟨p2, l2, err⟩
      have hk := umr_keep path (asciiLower m) n sc x P M S d hv
      rw [hc] at hk
      simp only at hk
      cases err with
      | some e => exact hk
      | none =>
          rcases hr : runMethods path n sc rest p2 with ⟨p3, l3, err2⟩
          have := ih p2 hk
          rw [hr] at this
          simpa [hr] using this

theorem runRoutes_cons_fst (x : Json) (r : Route) (rest : List Route) :
    (runRoutes x (r :: rest)).1 = (runRoutes (handleRoute x r).1 rest).1 := by
  rw [runRoutes]

theorem runMethods_cons_err (path n : String) (sc : Int) (m : String)
    (rest : List String) (x p2 : Json) (l2 : Log) (e : PyErr)
    (hc : update_method_response path (asciiLower m) n sc x = (p2, l2, some e)) :
    runMethods path n sc (m :: rest) x = (p2, l2, some e) := by
  rw [runMethods, hc]

theorem runMethods_cons_ok (path n : String) (sc : Int) (m : String)
    (rest : List String) (x p2 : Json) (l2 : Log)
    (hc : update_method_response path (asciiLower m) n sc x = (p2, l2, none)) :
    (runMethods path n sc (m :: rest) x).1 = (runMethods path n sc rest p2).1 := by
  rw [runMethods, hc]

/-- A route touching another path leaves a response entry unchanged. -/
theorem handleRoute_frame_path (r : Route) (x : Json) (P M S : String)
    (hne : P ≠ r.path) :
    respAt (handleRoute x r).1 P M S = respAt x P M S := by
  by_contra h
  exact hne (handleRoute_change r x P M S h).1

/-- A run of routes all touching other paths leaves a response entry
unchanged. -/
theorem runRoutes_frame_path (rs : List Route) (x : Json) (P M S : String)
    (hne : ∀ r2 ∈ rs, P ≠ r2.path) :
    respAt (runRoutes x rs).1 P M S = respAt x P M S := by
  induction rs generalizing x with
  | nil => rfl
  | cons r rest ih =>
      rw [runRoutes_cons_fst]
      rw [ih (handleRoute x r).1 (fun r2 hr2 => hne r2 (by simp [hr2]))]
      exact handleRoute_frame_path r x P M S (hne r (by simp))

/-- The methods loop preserves well-formedness. -/
theorem runMethods_wf (path n : String) (sc : Int) (ms : List String) (x : Json)
    (hwf : wfPaths x = true) :
    wfPaths (runMethods path n sc ms x).1 = true := by
  induction ms generalizing x with
  | nil => exact hwf
  | cons m rest ih =>
      rcases hc : update_method_response path (asciiLower m) n sc x with ⟨p2, l2, err⟩
      have h1 := umr_wf path (asciiLower m) n sc x hwf
      rw [hc] at h1
      simp only at h1
      cases err with
      | some e => rw [runMethods_cons_err path n sc m rest x p2 l2 e hc]; exact h1
      | none =>
          rw [runMethods_cons_ok path n sc m rest x p2 l2 hc]
          exact ih p2 h1

/-- One route iteration preserves well-formedness. -/
theorem handleRoute_wf (r : Route) (x : Json) (hwf : wfPaths x = true) :
    wfPaths (handleRoute x r).1 = true := by
  rcases handleRoute_cases x r with hu | ⟨n, heq⟩
  · rw [hu]; exact hwf
  · rw [heq]
    exact runMethods_wf r.path n (statusOr200 r.status_code) r.methods x hwf

/-- The route loop preserves well-formedness. -/
theorem runRoutes_wf (rs : List Route) (x : Json) (hwf : wfPaths x = true) :
    wfPaths (runRoutes x rs).1 = true := by
  induction rs generalizing x with
  | nil => exact hwf
  | cons r rest ih =>
      rw [runRoutes_cons_fst]
      exact ih (handleRoute x r).1 (handleRoute_wf r x hwf)

/-- A methods loop over a list containing `m` rewrites the documented
response entry at `(path, m.lower, str(status))` to a reference entry for
the record name `n`, on a well-formed path map. -/
theorem runMethods_writes (path n : String) (sc : Int) (ms : List String)
    (x : Json) (m : String)
    (hwf : wfPaths x = true) (hp : (pathAt x path).isSome = true)
    (hm : m ∈ ms)
    (hs : (respAt x path (asciiLower m) (toString sc)).isSome = true) :
    ∃ d, respAt (runMethods path n sc ms x).1 path (asciiLower m) (toString sc) =
      some (newResponseEntry d n) := by
  induction ms generalizing x with
  | nil => simp at hm
  | cons m0 rest ih =>
      rcases hc : update_method_response path (asciiLower m0) n sc x with ⟨p2, l2, err⟩
      have herr := umr_no_error path (asciiLower m0) n sc x hwf hp
      rw [hc] at herr
      simp only at herr
      subst herr
      rw [runMethods_cons_ok path n sc m0 rest x p2 l2 hc]
      have hwf2 : wfPaths p2 = true := by
        have := umr_wf path (asciiLower m0) n sc x hwf
        rw [hc] at this
        exact this
      have hshape := umr_shape_preserved path (asciiLower m0) n sc x path
        (asciiLower m) (toString sc)
      rw [hc] at hshape
      simp only at hshape
      rcases List.mem_cons.mp hm with rfl | hrest
      · obtain ⟨pkvs, mkvs, okvs, rkvs, ekvs, hws⟩ :=
          respAt_isSome_writeShape path (asciiLower m) (toString sc) x hwf hs
        have hw := umr_write path (asciiLower m) n sc x pkvs mkvs okvs rkvs ekvs hws
        rw [hc] at hw
        have hp2 : p2 = writtenPaths path (asciiLower m) n (toString sc)
            pkvs mkvs okvs rkvs ekvs := congrArg Prod.fst hw
        refine ⟨descOf ekvs, ?_⟩
        have hself := respAt_written_self path (asciiLower m) n (toString sc)
          pkvs mkvs okvs rkvs ekvs
        rw [← hp2] at hself
        exact runMethods_keep path n sc rest p2 path (asciiLower m) (toString sc)
          (descOf ekvs) hself
      · exact ih p2 hwf2 (hshape.1.trans hp) hrest (hshape.2.2.trans hs)

theorem pyContains_of_pathAt (x : Json) (P : String)
    (h : (pathAt x P).isSome = true) : pyContains x P = Except.ok true := by
  cases x <;> simp [pathAt] at h
  next kvs => simp [pyContains, h]

/-- With a resolvable record-returning handler and its path present, the
route iteration is exactly the methods loop. -/
theorem handleRoute_to_methods (x : Json) (r : Route) (ep : Endpoint)
    (hints : List (String × TypeExpr)) (rt : TypeExpr) (n : String)
    (hA : r.isAPIRoute = true) (hep : r.endpoint = some ep)
    (hh : ep.hints = Except.ok hints)
    (h1 : alookup hints "return" = some rt) (h2 : extract_struct rt = some n)
    (hin : pyContains x r.path = Except.ok true) :
    (handleRoute x r).1 =
      (runMethods r.path n (statusOr200 r.status_code) r.methods x).1 := by
  have hpr : processRoute x r ep =
      runMethods r.path n (statusOr200 r.status_code) r.methods x := by
    simp [processRoute, hh, h1, h2, hin]
  rcases hr : runMethods r.path n (statusOr200 r.status_code) r.methods x
    with ⟨p2, l2, err⟩
  cases err with
  | none => simp [handleRoute, hA, hep, hpr, hr]
  | some e => cases e <;> simp [handleRoute, hA, hep, hpr, hr]

theorem runRoutes_append_fst (as bs : List Route) (x : Json) :
    (runRoutes x (as ++ bs)).1 = (runRoutes (runRoutes x as).1 bs).1 := by
  induction as generalizing x with
  | nil => rfl
  | cons r rest ih =>
      rw [List.cons_append, runRoutes_cons_fst, ih, runRoutes_cons_fst]

theorem refAt_of_entry (paths : Json) (P M S : String) (d : Json) (n : String)
    (h : respAt paths P M S = some (newResponseEntry d n)) :
    refAt paths P M S = some (Json.str ("#/components/schemas/" ++ n)) := by
  simp [refAt, h, entryField, newResponseEntry, alookup]

theorem respAt_isSome_pathAt (x : Json) (P M S : String)
    (h : (respAt x P M S).isSome = true) : (pathAt x P).isSome = true := by
  cases x with
  | obj pkvs =>
      simp only [pathAt]
      cases hlp : alookup pkvs P with
      | none => simp [respAt, opKeyAt, methodAt, pathAt, hlp] at h
      | some pi => simp
  | null => simp [respAt, opKeyAt, methodAt, pathAt] at h
  | bool b => simp [respAt, opKeyAt, methodAt, pathAt] at h
  | num i => simp [respAt, opKeyAt, methodAt, pathAt] at h
  | str s2 => simp [respAt, opKeyAt, methodAt, pathAt] at h
  | arr xs => simp [respAt, opKeyAt, methodAt, pathAt] at h

theorem updatedDoc_eq (schema : List (String × Json)) (paths0 : Json)
    (rs : List Route) (h : alookup schema "paths" = some paths0) :
    updatedDoc schema rs = astore schema "paths" (runRoutes paths0 rs).1 := by
  unfold updatedDoc update_route_responses
  rw [h]

/-- C1 (amended): for a route whose return annotation extracts to record
type `R` and a well-formed document in which the route's path, lowercased
method, and stringified effective status code are all present, the update
sets that entry's `$ref` to `"#/components/schemas/" + R`'s name — provided
no route placed later in the table shares the route's path (a later route on
the same path overwrites the entry with its own reference, which is what the
counterexample exhibits). -/
theorem update_sets_struct_ref
    (schema : List (String × Json)) (paths0 : Json)
    (pre suf : List Route) (r : Route) (ep : Endpoint)
    (hints : List (String × TypeExpr)) (rt : TypeExpr) (n m : String)
    (hdoc : alookup schema "paths" = some paths0)
    (hwf : wfPaths paths0 = true)
    (hA : r.isAPIRoute = true) (hep : r.endpoint = some ep)
    (hh : ep.hints = Except.ok hints)
    (h1 : alookup hints "return" = some rt) (h2 : extract_struct rt = some n)
    (hm : m ∈ r.methods)
    (hs : (respAt paths0 r.path (asciiLower m)
      (toString (statusOr200 r.status_code))).isSome = true)
    (hsuf : ∀ r2 ∈ suf, r2.path ≠ r.path) :
    docRefAt (updatedDoc schema (pre ++ r :: suf)) r.path (asciiLower m)
        (toString (statusOr200 r.status_code)) =
      some (Json.str ("#/components/schemas/" ++ n)) := by
  rw [updatedDoc_eq schema paths0 (pre ++ r :: suf) hdoc]
  have hfin : docRefAt (astore schema "paths" (runRoutes paths0 (pre ++ r :: suf)).1)
      r.path (asciiLower m) (toString (statusOr200 r.status_code)) =
      refAt (runRoutes paths0 (pre ++ r :: suf)).1 r.path (asciiLower m)
        (toString (statusOr200 r.status_code)) := by
    simp [docRefAt, alookup_astore_self]
  rw [hfin, runRoutes_append_fst, runRoutes_cons_fst]
  have hwf1 : wfPaths (runRoutes paths0 pre).1 = true := runRoutes_wf pre paths0 hwf
  have hsh := runRoutes_shape_preserved pre paths0 r.path (asciiLower m)
    (toString (statusOr200 r.status_code))
  have hp1 : (pathAt (runRoutes paths0 pre).1 r.path).isSome = true :=
    hsh.1.trans (respAt_isSome_pathAt paths0 _ _ _ hs)
  have hs1 : (respAt (runRoutes paths0 pre).1 r.path (asciiLower m)
      (toString (statusOr200 r.status_code))).isSome = true := hsh.2.2.trans hs
  rw [handleRoute_to_methods (runRoutes paths0 pre).1 r ep hints rt n hA hep hh h1 h2
    (pyContains_of_pathAt _ _ hp1)]
  obtain ⟨d, hwrite⟩ := runMethods_writes r.path n (statusOr200 r.status_code)
    r.methods (runRoutes paths0 pre).1 m hwf1 hp1 hm hs1
  have hkeep := runRoutes_frame_path suf
    (runMethods r.path n (statusOr200 r.status_code) r.methods (runRoutes paths0 pre).1).1
    r.path (asciiLower m) (toString (statusOr200 r.status_code))
    (fun r2 hr2 => (hsuf r2 hr2).symm)
  exact refAt_of_entry _ _ _ _ d n (hkeep.trans hwrite)

theorem update_sets_struct_ref_witness :
    ("GET" ∈ demoRoute.methods ∧ wfPaths demoPaths = true) ∧
    docRefAt (updatedDoc demoSchema ([] ++ demoRoute :: [])) "/items" (asciiLower "GET")
        (toString (statusOr200 demoRoute.status_code)) =
      some (Json.str ("#/components/schemas/" ++ "ItemOut")) :=
  ⟨⟨by decide, by decide⟩,
    update_sets_struct_ref demoSchema demoPaths [] [] demoRoute
      ⟨"get_items", Except.ok [("return", TypeExpr.record "ItemOut")]⟩
      [("return", TypeExpr.record "ItemOut")] (TypeExpr.record "ItemOut")
      "ItemOut" "GET" rfl (by decide) rfl rfl rfl rfl rfl (by decide) (by decide)
      (by intro r2 hr2; simp at hr2)⟩

/-- C1 counterexample: two routes registered on the same path, method, and
status, returning record types `A` and `B`: the claim's conclusion for the
first route fails, because the later route overwrote the entry with its own
reference. -/
theorem two_routes_same_path_ref_mismatch :
    (routeA.isAPIRoute = true ∧ extract_struct (TypeExpr.record "A") = some "A" ∧
      "GET" ∈ routeA.methods ∧
      (docRespAt demoSchema "/items" "get" "200").isSome = true) ∧
    docRefAt (updatedDoc demoSchema [routeA, routeB]) "/items" "get" "200" =
      some (Json.str "#/components/schemas/B") ∧
    docRefAt (updatedDoc demoSchema [routeA, routeB]) "/items" "get" "200" ≠
      some (Json.str "#/components/schemas/A") := by
  refine ⟨⟨rfl, rfl, by decide, by decide⟩, by decide, by decide⟩

theorem Json.beq_refl (a : Json) : Json.beq a a = true := (Json.beq_iff a a).mpr rfl

mutual

theorem sim_refl : ∀ (role : Nat) (a : Json), sim role a a = true
  | role, Json.obj xs => by
      simp only [sim]
      by_cases h4 : role = 4
      · simp [h4]
      · by_cases h3 : role ≤ 3
        · simp [h4, h3, simKVs_refl role xs]
        · simp [h4, h3, Json.beq_refl]
  | _, Json.null => Json.beq_refl _
  | _, Json.bool b => Json.beq_refl _
  | _, Json.num i => Json.beq_refl _
  | _, Json.str s => Json.beq_refl _
  | _, Json.arr l => Json.beq_refl _

theorem simKVs_refl : ∀ (role : Nat) (xs : List (String × Json)), simKVs role xs xs = true
  | _, [] => rfl
  | role, (k, v) :: xs => by
      simp only [simKVs, Bool.and_eq_true, decide_eq_true_eq]
      exact ⟨⟨trivial, sim_refl _ v⟩, simKVs_refl role xs⟩

end

mutual

theorem sim_trans : ∀ (role : Nat) (a b c : Json),
    sim role a b = true → sim role b c = true → sim role a c = true
  | role, Json.obj xs, Json.obj ys, Json.obj zs => by
      intro h1 h2
      simp only [sim] at h1 h2 ⊢
      by_cases h4 : role = 4
      · simp only [if_pos h4, decide_eq_true_eq] at h1 h2 ⊢
        exact h1.trans h2
      · by_cases h3 : role ≤ 3
        · simp only [if_neg h4, if_pos h3] at h1 h2 ⊢
          exact simKVs_trans role xs ys zs h1 h2
        · simp only [if_neg h4, if_neg h3] at h1 h2 ⊢
          rw [Json.beq_iff] at h1 h2 ⊢
          exact h1.trans h2
  | role, Json.obj xs, Json.obj ys, Json.null => by
      intro _ h2
      exact absurd ((Json.beq_iff _ _).mp h2) (by simp)
  | role, Json.obj xs, Json.obj ys, Json.bool b => by
      intro _ h2
      exact absurd ((Json.beq_iff _ _).mp h2) (by simp)
  | role, Json.obj xs, Json.obj ys, Json.num i => by
      intro _ h2
      exact absurd ((Json.beq_iff _ _).mp h2) (by simp)
  | role, Json.obj xs, Json.obj ys, Json.str s => by
      intro _ h2
      exact absurd ((Json.beq_iff _ _).mp h2) (by simp)
  | role, Json.obj xs, Json.obj ys, Json.arr l => by
      intro _ h2
      exact absurd ((Json.beq_iff _ _).mp h2) (by simp)
  | role, Json.obj xs, Json.null, c => by
      intro h1 _
      exact absurd ((Json.beq_iff _ _).mp h1) (by simp)
  | role, Json.obj xs, Json.bool b, c => by
      intro h1 _
      exact absurd ((Json.beq_iff _ _).mp h1) (by simp)
  | role, Json.obj xs, Json.num i, c => by
      intro h1 _
      exact absurd ((Json.beq_iff _ _).mp h1) (by simp)
  | role, Json.obj xs, Json.str s, c => by
      intro h1 _
      exact absurd ((Json.beq_iff _ _).mp h1) (by simp)
  | role, Json.obj xs, Json.arr l, c => by
      intro h1 _
      exact absurd ((Json.beq_iff _ _).mp h1) (by simp)
  | role, Json.null, b, c => by
      intro h1 h2
      have hb := (Json.beq_iff _ b).mp h1
      rw [← hb] at h2
      exact h2
  | role, Json.bool b0, b, c => by
      intro h1 h2
      have hb := (Json.beq_iff _ b).mp h1
      rw [← hb] at h2
      exact h2
  | role, Json.num i, b, c => by
      intro h1 h2
      have hb := (Json.beq_iff _ b).mp h1
      rw [← hb] at h2
      exact h2
  | role, Json.str s, b, c => by
      intro h1 h2
      have hb := (Json.beq_iff _ b).mp h1
      rw [← hb] at h2
      exact h2
  | role, Json.arr l, b, c => by
      intro h1 h2
      have hb := (Json.beq_iff _ b).mp h1
      rw [← hb] at h2
      exact h2

theorem simKVs_trans : ∀ (role : Nat) (xs ys zs : List (String × Json)),
    simKVs role xs ys = true → simKVs role ys zs = true → simKVs role xs zs = true
  | role, [], ys, zs => by
      intro h1 h2
      cases ys with
      | nil => exact h2
      | cons p ys => simp [simKVs] at h1
  | role, (k, v) :: xs, ys, zs => by
      intro h1 h2
      cases ys with
      | nil => simp [simKVs] at h1
      | cons p ys =>
          obtain ⟨l, w⟩ := p
          cases zs with
          | nil => simp [simKVs] at h2
          | cons q zs =>
              obtain ⟨o, u⟩ := q
              simp only [simKVs, Bool.and_eq_true, decide_eq_true_eq] at h1 h2 ⊢
              obtain ⟨⟨hk1, hv1⟩, ht1⟩ := h1
              obtain ⟨⟨hk2, hv2⟩, ht2⟩ := h2
              subst hk1
              refine ⟨⟨hk2, ?_⟩, simKVs_trans role xs ys zs ht1 ht2⟩
              exact sim_trans (childRole role k) v w u hv1 hv2

end

theorem sim_cases (role : Nat) (a b : Json) (h : sim role a b = true) :
    (∃ xs ys, a = Json.obj xs ∧ b = Json.obj ys) ∨ a = b := by
  cases a <;> cases b <;> first
    | (left; exact ⟨_, _, rfl, rfl⟩)
    | (right; exact (Json.beq_iff _ _).mp h)

theorem sim_obj_kvs (role : Nat) (h3 : role ≤ 3) (xs ys : List (String × Json))
    (h : sim role (Json.obj xs) (Json.obj ys) = true) : simKVs role xs ys = true := by
  have h4 : ¬ role = 4 := by omega
  simp only [sim, if_neg h4, if_pos h3] at h
  exact h

theorem simKVs_keys (role : Nat) : ∀ (xs ys : List (String × Json)),
    simKVs role xs ys = true → xs.map Prod.fst = ys.map Prod.fst := by
  intro xs
  induction xs with
  | nil => intro ys h; cases ys with
      | nil => rfl
      | cons p ys => simp [simKVs] at h
  | cons p xs ih =>
      intro ys h
      obtain ⟨k, v⟩ := p
      cases ys with
      | nil => simp [simKVs] at h
      | cons q ys =>
          obtain ⟨l, w⟩ := q
          simp only [simKVs, Bool.and_eq_true, decide_eq_true_eq] at h
          simp [h.1.1, ih ys h.2]

theorem alookup_isSome_of_keys (xs : List (String × Json)) :
    ∀ (ys : List (String × Json)) (k : String),
    xs.map Prod.fst = ys.map Prod.fst →
    (alookup xs k).isSome = (alookup ys k).isSome := by
  induction xs with
  | nil => intro ys k h; cases ys with
      | nil => rfl
      | cons q ys => simp at h
  | cons p xs ih =>
      intro ys k h
      obtain ⟨k0, v0⟩ := p
      cases ys with
      | nil => simp at h
      | cons q ys =>
          obtain ⟨l0, w0⟩ := q
          simp only [List.map_cons, List.cons.injEq] at h
          obtain ⟨rfl, h⟩ := h
          by_cases hk : k0 = k
          · simp [alookup, hk]
          · simp only [alookup, if_neg hk]
            exact ih ys k h

theorem simKVs_alookup (role : Nat) : ∀ (xs ys : List (String × Json)) (k : String),
    simKVs role xs ys = true →
    (alookup xs k = none ∧ alookup ys k = none)
    ∨ ∃ v w, alookup xs k = some v ∧ alookup ys k = some w ∧
        sim (childRole role k) v w = true := by
  intro xs
  induction xs with
  | nil => intro ys k h; cases ys with
      | nil => exact Or.inl ⟨rfl, rfl⟩
      | cons q ys => simp [simKVs] at h
  | cons p xs ih =>
      intro ys k h
      obtain ⟨k0, v0⟩ := p
      cases ys with
      | nil => simp [simKVs] at h
      | cons q ys =>
          obtain ⟨l0, w0⟩ := q
          simp only [simKVs, Bool.and_eq_true, decide_eq_true_eq] at h
          obtain ⟨⟨hk, hv⟩, ht⟩ := h
          subst hk
          by_cases hk0 : k0 = k
          · subst hk0
            exact Or.inr ⟨v0, w0, by simp [alookup], by simp [alookup], hv⟩
          · simp only [alookup, if_neg hk0]
            exact ih ys k ht

theorem simKVs_astore (role : Nat) : ∀ (xs ys : List (String × Json)) (k : String)
    (v w : Json), simKVs role xs ys = true → sim (childRole role k) v w = true →
    simKVs role (astore xs k v) (astore ys k w) = true := by
  intro xs
  induction xs with
  | nil => intro ys k v w h hv; cases ys with
      | nil => simp [astore, simKVs, hv]
      | cons q ys => simp [simKVs] at h
  | cons p xs ih =>
      intro ys k v w h hv
      obtain ⟨k0, v0⟩ := p
      cases ys with
      | nil => simp [simKVs] at h
      | cons q ys =>
          obtain ⟨l0, w0⟩ := q
          simp only [simKVs, Bool.and_eq_true, decide_eq_true_eq] at h
          obtain ⟨⟨hk, hv0⟩, ht⟩ := h
          subst hk
          by_cases hk0 : k0 = k
          · subst hk0
            simp only [astore, if_pos rfl, simKVs, Bool.and_eq_true, decide_eq_true_eq]
            exact ⟨⟨trivial, hv⟩, ht⟩
          · simp only [astore, if_neg hk0, simKVs, Bool.and_eq_true, decide_eq_true_eq]
            exact ⟨⟨trivial, hv0⟩, ih ys k v w ht hv⟩

theorem sim_pyContains (role : Nat) (h3 : role ≤ 3) (a b : Json) (k : String)
    (h : sim role a b = true) : pyContains a k = pyContains b k := by
  rcases sim_cases role a b h with ⟨xs, ys, rfl, rfl⟩ | rfl
  · have hk := simKVs_keys role xs ys (sim_obj_kvs role h3 xs ys h)
    simp [pyContains, alookup_isSome_of_keys xs ys k hk]
  · rfl

theorem sim_pyIndex (role : Nat) (h3 : role ≤ 3) (a b : Json) (k : String)
    (h : sim role a b = true) :
    (∃ e, pyIndex a k = Except.error e ∧ pyIndex b k = Except.error e)
    ∨ (∃ v w, pyIndex a k = Except.ok v ∧ pyIndex b k = Except.ok w ∧
        sim (childRole role k) v w = true) := by
  rcases sim_cases role a b h with ⟨xs, ys, rfl, rfl⟩ | rfl
  · rcases simKVs_alookup role xs ys k (sim_obj_kvs role h3 xs ys h) with
      ⟨h1, h2⟩ | ⟨v, w, h1, h2, hv⟩
    · exact Or.inl ⟨PyErr.keyError, by simp [pyIndex, h1], by simp [pyIndex, h2]⟩
    · exact Or.inr ⟨v, w, by simp [pyIndex, h1], by simp [pyIndex, h2], hv⟩
  · cases hx : pyIndex a k with
    | error e => exact Or.inl ⟨e, rfl, rfl⟩
    | ok v => exact Or.inr ⟨v, v, rfl, rfl, sim_refl _ v⟩

theorem sim_pyGet (role : Nat) (h3 : role ≤ 3) (a b : Json) (k : String) (d : Json)
    (h : sim role a b = true) :
    (pyGet a k d = Except.error PyErr.attributeError ∧
      pyGet b k d = Except.error PyErr.attributeError)
    ∨ (∃ v w, pyGet a k d = Except.ok v ∧ pyGet b k d = Except.ok w ∧
        sim (childRole role k) v w = true) := by
  rcases sim_cases role a b h with ⟨xs, ys, rfl, rfl⟩ | rfl
  · rcases simKVs_alookup role xs ys k (sim_obj_kvs role h3 xs ys h) with
      ⟨h1, h2⟩ | ⟨v, w, h1, h2, hv⟩
    · exact Or.inr ⟨d, d, by simp [pyGet, h1], by simp [pyGet, h2], sim_refl _ d⟩
    · exact Or.inr ⟨v, w, by simp [pyGet, h1], by simp [pyGet, h2], hv⟩
  · cases a with
    | obj ys => exact Or.inr ⟨_, _, rfl, rfl, sim_refl _ _⟩
    | null => exact Or.inl ⟨rfl, rfl⟩
    | bool b0 => exact Or.inl ⟨rfl, rfl⟩
    | num i => exact Or.inl ⟨rfl, rfl⟩
    | str s => exact Or.inl ⟨rfl, rfl⟩
    | arr l => exact Or.inl ⟨rfl, rfl⟩

theorem sim_pyGet_desc (a b : Json) (h : sim 4 a b = true) :
    pyGet a "description" (Json.str "Successful Response") =
      pyGet b "description" (Json.str "Successful Response") := by
  rcases sim_cases 4 a b h with ⟨xs, ys, rfl, rfl⟩ | rfl
  · have hd : descOf xs = descOf ys := by
      have h2 : decide (descOf xs = descOf ys) = true := h
      exact of_decide_eq_true h2
    simp only [pyGet]
    rw [show (alookup xs "description").getD (Json.str "Successful Response") = descOf xs
        from rfl,
      show (alookup ys "description").getD (Json.str "Successful Response") = descOf ys
        from rfl, hd]
  · rfl

theorem sim_pySet (a b v w : Json) (s : String)
    (h : sim 3 a b = true) (hv : sim 4 v w = true) :
    (pySet a s v = Except.error PyErr.typeError ∧
      pySet b s w = Except.error PyErr.typeError)
    ∨ (∃ xs ys, a = Json.obj xs ∧ b = Json.obj ys ∧
        pySet a s v = Except.ok (Json.obj (astore xs s v)) ∧
        pySet b s w = Except.ok (Json.obj (astore ys s w)) ∧
        simKVs 3 (astore xs s v) (astore ys s w) = true) := by
  rcases sim_cases 3 a b h with ⟨xs, ys, rfl, rfl⟩ | rfl
  · refine Or.inr ⟨xs, ys, rfl, rfl, rfl, rfl, ?_⟩
    refine simKVs_astore 3 xs ys s v w (sim_obj_kvs 3 (by omega) xs ys h) ?_
    have : childRole 3 s = 4 := rfl
    rw [this]
    exact hv
  · cases a with
    | obj ys =>
        refine Or.inr ⟨ys, ys, rfl, rfl, rfl, rfl, ?_⟩
        refine simKVs_astore 3 ys ys s v w (simKVs_refl 3 ys) ?_
        have : childRole 3 s = 4 := rfl
        rw [this]
        exact hv
    | null => exact Or.inl ⟨rfl, rfl⟩
    | bool b0 => exact Or.inl ⟨rfl, rfl⟩
    | num i => exact Or.inl ⟨rfl, rfl⟩
    | str s2 => exact Or.inl ⟨rfl, rfl⟩
    | arr l => exact Or.inl ⟨rfl, rfl⟩

theorem respAt_storeChain_self (p m s : String)
    (pkvs mkvs okvs rkvs : List (String × Json)) (v : Json) :
    respAt (storeChain p m s pkvs mkvs okvs rkvs v) p m s = some v := by
  simp [storeChain, respAt, opKeyAt, methodAt, pathAt, alookup_astore_self]

theorem respAt_storeChain_frame (p m s : String)
    (pkvs mkvs okvs rkvs : List (String × Json)) (v : Json)
    (h1 : alookup pkvs p = some (Json.obj mkvs))
    (h2 : alookup mkvs m = some (Json.obj okvs))
    (h3 : alookup okvs "responses" = some (Json.obj rkvs))
    (P M S : String) (hne : ¬ (P = p ∧ M = m ∧ S = s)) :
    respAt (storeChain p m s pkvs mkvs okvs rkvs v) P M S =
      respAt (Json.obj pkvs) P M S := by
  by_cases hP : P = p
  · subst hP
    by_cases hM : M = m
    · subst hM
      have hS : S ≠ s := by
        intro hs
        exact hne ⟨rfl, rfl, hs⟩
      simp [storeChain, respAt, opKeyAt, methodAt, pathAt,
        alookup_astore_self, alookup_astore_ne _ _ _ _ hS, h1, h2, h3]
    · simp [storeChain, respAt, opKeyAt, methodAt, pathAt,
        alookup_astore_self, alookup_astore_ne _ _ _ _ hM, h1]
  · simp [storeChain, respAt, opKeyAt, methodAt, pathAt,
      alookup_astore_ne _ _ _ _ hP]

theorem sim_of_kvs (role : Nat) (h3 : role ≤ 3) (xs ys : List (String × Json))
    (h : simKVs role xs ys = true) : sim role (Json.obj xs) (Json.obj ys) = true := by
  have h4 : ¬ role = 4 := by omega
  simp [sim, h4, h3, h]

theorem umr_eq1 (p m n : String) (sc : Int) (paths : Json) (e : PyErr)
    (h1 : pyIndex paths p = Except.error e) :
    update_method_response p m n sc paths = (paths, [], some e) := by
  simp [update_method_response, h1]

theorem umr_eq2 (p m n : String) (sc : Int) (paths pi1 : Json) (e : PyErr)
    (h1 : pyIndex paths p = Except.ok pi1)
    (h2 : pyContains pi1 m = Except.error e) :
    update_method_response p m n sc paths = (paths, [], some e) := by
  simp [update_method_response, h1, h2]

theorem umr_eq3 (p m n : String) (sc : Int) (paths pi1 : Json)
    (h1 : pyIndex paths p = Except.ok pi1)
    (h2 : pyContains pi1 m = Except.ok false) :
    update_method_response p m n sc paths = (paths, [LogLevel.debug], none) := by
  simp [update_method_response, h1, h2]

theorem umr_eq4 (p m n : String) (sc : Int) (paths pi1 : Json) (e : PyErr)
    (h1 : pyIndex paths p = Except.ok pi1)
    (h2 : pyContains pi1 m = Except.ok true)
    (h3 : pyIndex pi1 m = Except.error e) :
    update_method_response p m n sc paths = (paths, [], some e) := by
  simp [update_method_response, h1, h2, h3]

theorem umr_eq5 (p m n : String) (sc : Int) (paths pi1 es : Json) (e : PyErr)
    (h1 : pyIndex paths p = Except.ok pi1)
    (h2 : pyContains pi1 m = Except.ok true)
    (h3 : pyIndex pi1 m = Except.ok es)
    (h4 : pyGet es "responses" (Json.obj []) = Except.error e) :
    update_method_response p m n sc paths = (paths, [], some e) := by
  simp [update_method_response, h1, h2, h3, h4]

theorem umr_eq6 (p m n : String) (sc : Int) (paths pi1 es rr : Json) (e : PyErr)
    (h1 : pyIndex paths p = Except.ok pi1)
    (h2 : pyContains pi1 m = Except.ok true)
    (h3 : pyIndex pi1 m = Except.ok es)
    (h4 : pyGet es "responses" (Json.obj []) = Except.ok rr)
    (h5 : pyContains rr (toString sc) = Except.error e) :
    update_method_response p m n sc paths = (paths, [], some e) := by
  simp [update_method_response, h1, h2, h3, h4, h5]

theorem umr_eq7 (p m n : String) (sc : Int) (paths pi1 es rr : Json)
    (h1 : pyIndex paths p = Except.ok pi1)
    (h2 : pyContains pi1 m = Except.ok true)
    (h3 : pyIndex pi1 m = Except.ok es)
    (h4 : pyGet es "responses" (Json.obj []) = Except.ok rr)
    (h5 : pyContains rr (toString sc) = Except.ok false) :
    update_method_response p m n sc paths = (paths, [LogLevel.debug], none) := by
  simp [update_method_response, h1, h2, h3, h4, h5]

theorem umr_eq8 (p m n : String) (sc : Int) (paths pi1 es rr : Json) (e : PyErr)
    (h1 : pyIndex paths p = Except.ok pi1)
    (h2 : pyContains pi1 m = Except.ok true)
    (h3 : pyIndex pi1 m = Except.ok es)
    (h4 : pyGet es "responses" (Json.obj []) = Except.ok rr)
    (h5 : pyContains rr (toString sc) = Except.ok true)
    (h6 : pyIndex rr (toString sc) = Except.error e) :
    update_method_response p m n sc paths = (paths, [], some e) := by
  simp [update_method_response, h1, h2, h3, h4, h5, h6]

theorem umr_eq9 (p m n : String) (sc : Int) (paths pi1 es rr re : Json) (e : PyErr)
    (h1 : pyIndex paths p = Except.ok pi1)
    (h2 : pyContains pi1 m = Except.ok true)
    (h3 : pyIndex pi1 m = Except.ok es)
    (h4 : pyGet es "responses" (Json.obj []) = Except.ok rr)
    (h5 : pyContains rr (toString sc) = Except.ok true)
    (h6 : pyIndex rr (toString sc) = Except.ok re)
    (h7 : pyGet re "description" (Json.str "Successful Response") = Except.error e) :
    update_method_response p m n sc paths = (paths, [], some e) := by
  simp [update_method_response, h1, h2, h3, h4, h5, h6, h7]

theorem umr_eq10 (p m n : String) (sc : Int) (paths pi1 es rr re dv : Json) (e : PyErr)
    (h1 : pyIndex paths p = Except.ok pi1)
    (h2 : pyContains pi1 m = Except.ok true)
    (h3 : pyIndex pi1 m = Except.ok es)
    (h4 : pyGet es "responses" (Json.obj []) = Except.ok rr)
    (h5 : pyContains rr (toString sc) = Except.ok true)
    (h6 : pyIndex rr (toString sc) = Except.ok re)
    (h7 : pyGet re "description" (Json.str "Successful Response") = Except.ok dv)
    (h8 : pyIndex es "responses" = Except.error e) :
    update_method_response p m n sc paths = (paths, [], some e) := by
  simp [update_method_response, h1, h2, h3, h4, h5, h6, h7, h8]

theorem umr_eq11 (p m n : String) (sc : Int) (paths pi1 es rr re dv rs : Json) (e : PyErr)
    (h1 : pyIndex paths p = Except.ok pi1)
    (h2 : pyContains pi1 m = Except.ok true)
    (h3 : pyIndex pi1 m = Except.ok es)
    (h4 : pyGet es "responses" (Json.obj []) = Except.ok rr)
    (h5 : pyContains rr (toString sc) = Except.ok true)
    (h6 : pyIndex rr (toString sc) = Except.ok re)
    (h7 : pyGet re "description" (Json.str "Successful Response") = Except.ok dv)
    (h8 : pyIndex es "responses" = Except.ok rs)
    (h9 : pySet rs (toString sc) (newResponseEntry dv n) = Except.error e) :
    update_method_response p m n sc paths = (paths, [], some e) := by
  simp [update_method_response, h1, h2, h3, h4, h5, h6, h7, h8, h9]

theorem umr_eq12 (p m n : String) (sc : Int) (paths pi1 es rr re dv rs rs2 : Json)
    (h1 : pyIndex paths p = Except.ok pi1)
    (h2 : pyContains pi1 m = Except.ok true)
    (h3 : pyIndex pi1 m = Except.ok es)
    (h4 : pyGet es "responses" (Json.obj []) = Except.ok rr)
    (h5 : pyContains rr (toString sc) = Except.ok true)
    (h6 : pyIndex rr (toString sc) = Except.ok re)
    (h7 : pyGet re "description" (Json.str "Successful Response") = Except.ok dv)
    (h8 : pyIndex es "responses" = Except.ok rs)
    (h9 : pySet rs (toString sc) (newResponseEntry dv n) = Except.ok rs2) :
    update_method_response p m n sc paths =
      (jsonStore paths p (jsonStore pi1 m (jsonStore es "responses" rs2)),
        [LogLevel.debug], none) := by
  simp [update_method_response, h1, h2, h3, h4, h5, h6, h7, h8, h9]

theorem pyIndex_obj_ok (kvs : List (String × Json)) (k : String) (v : Json)
    (h : pyIndex (Json.obj kvs) k = Except.ok v) : alookup kvs k = some v := by
  rcases pyIndex_ok _ _ _ h with ⟨kvs2, heq, hl⟩
  injection heq with h2
  subst h2
  exact hl

/-- Congruence of one method update under similarity: both runs take the
same branch and emit the same log records and exception; the results stay
similar; and a location where the results differ differed already and was
left untouched on both sides. -/
theorem umr_sim (p m n : String) (sc : Int) (g f : Json) (hsim : sim 0 g f = true) :
    (update_method_response p m n sc g).2 = (update_method_response p m n sc f).2
    ∧ sim 0 (update_method_response p m n sc g).1 (update_method_response p m n sc f).1
    ∧ ∀ P M S, respAt (update_method_response p m n sc g).1 P M S ≠
        respAt (update_method_response p m n sc f).1 P M S →
        (respAt g P M S ≠ respAt f P M S
         ∧ respAt (update_method_response p m n sc f).1 P M S = respAt f P M S
         ∧ respAt (update_method_response p m n sc g).1 P M S = respAt g P M S) := by
  rcases sim_pyIndex 0 (by omega) g f p hsim with ⟨e, hg1, hf1⟩ | ⟨pig, pif, hg1, hf1, hsim1⟩
  · rw [umr_eq1 p m n sc g e hg1, umr_eq1 p m n sc f e hf1]
    exact ⟨rfl, hsim, fun P M S hne => ⟨hne, rfl, rfl⟩⟩
  have hsim1 : sim 1 pig pif = true := hsim1
  have hcont := sim_pyContains 1 (by omega) pig pif m hsim1
  cases hcf : pyContains pif m with
  | error e =>
      rw [umr_eq2 p m n sc g pig e hg1 (hcont.trans hcf),
        umr_eq2 p m n sc f pif e hf1 hcf]
      exact ⟨rfl, hsim, fun P M S hne => ⟨hne, rfl, rfl⟩⟩
  | ok b1 =>
  cases b1 with
  | false =>
      rw [umr_eq3 p m n sc g pig hg1 (hcont.trans hcf),
        umr_eq3 p m n sc f pif hf1 hcf]
      exact ⟨rfl, hsim, fun P M S hne => ⟨hne, rfl, rfl⟩⟩
  | true =>
  have hcg := hcont.trans hcf
  rcases sim_pyIndex 1 (by omega) pig pif m hsim1 with ⟨e, hg2, hf2⟩ | ⟨esg, esf, hg2, hf2, hsim2⟩
  · rw [umr_eq4 p m n sc g pig e hg1 hcg hg2, umr_eq4 p m n sc f pif e hf1 hcf hf2]
    exact ⟨rfl, hsim, fun P M S hne => ⟨hne, rfl, rfl⟩⟩
  have hsim2 : sim 2 esg esf = true := hsim2
  rcases sim_pyGet 2 (by omega) esg esf "responses" (Json.obj []) hsim2 with
    ⟨hg3, hf3⟩ | ⟨rg, rf, hg3, hf3, hsim3⟩
  · rw [umr_eq5 p m n sc g pig esg PyErr.attributeError hg1 hcg hg2 hg3,
      umr_eq5 p m n sc f pif esf PyErr.attributeError hf1 hcf hf2 hf3]
    exact ⟨rfl, hsim, fun P M S hne => ⟨hne, rfl, rfl⟩⟩
  have hsim3 : sim 3 rg rf = true := by
    have hcr : childRole 2 "responses" = 3 := by simp [childRole]
    rw [hcr] at hsim3
    exact hsim3
  have hcont2 := sim_pyContains 3 (by omega) rg rf (toString sc) hsim3
  cases hc2f : pyContains rf (toString sc) with
  | error e =>
      rw [umr_eq6 p m n sc g pig esg rg e hg1 hcg hg2 hg3 (hcont2.trans hc2f),
        umr_eq6 p m n sc f pif esf rf e hf1 hcf hf2 hf3 hc2f]
      exact ⟨rfl, hsim, fun P M S hne => ⟨hne, rfl, rfl⟩⟩
  | ok b2 =>
  cases b2 with
  | false =>
      rw [umr_eq7 p m n sc g pig esg rg hg1 hcg hg2 hg3 (hcont2.trans hc2f),
        umr_eq7 p m n sc f pif esf rf hf1 hcf hf2 hf3 hc2f]
      exact ⟨rfl, hsim, fun P M S hne => ⟨hne, rfl, rfl⟩⟩
  | true =>
  have hc2g := hcont2.trans hc2f
  rcases sim_pyIndex 3 (by omega) rg rf (toString sc) hsim3 with
    ⟨e, hg4, hf4⟩ | ⟨reg, ref, hg4, hf4, hsim4⟩
  · rw [umr_eq8 p m n sc g pig esg rg e hg1 hcg hg2 hg3 hc2g hg4,
      umr_eq8 p m n sc f pif esf rf e hf1 hcf hf2 hf3 hc2f hf4]
    exact ⟨rfl, hsim, fun P M S hne => ⟨hne, rfl, rfl⟩⟩
  have hsim4 : sim 4 reg ref = true := hsim4
  have hdesc := sim_pyGet_desc reg ref hsim4
  cases hdf : pyGet ref "description" (Json.str "Successful Response") with
  | error e =>
      rw [umr_eq9 p m n sc g pig esg rg reg e hg1 hcg hg2 hg3 hc2g hg4 (hdesc.trans hdf),
        umr_eq9 p m n sc f pif esf rf ref e hf1 hcf hf2 hf3 hc2f hf4 hdf]
      exact ⟨rfl, hsim, fun P M S hne => ⟨hne, rfl, rfl⟩⟩
  | ok dv =>
  have hdg := hdesc.trans hdf
  rcases sim_pyIndex 2 (by omega) esg esf "responses" hsim2 with
    ⟨e, hg5, hf5⟩ | ⟨rsg, rsf, hg5, hf5, hsim5⟩
  · rw [umr_eq10 p m n sc g pig esg rg reg dv e hg1 hcg hg2 hg3 hc2g hg4 hdg hg5,
      umr_eq10 p m n sc f pif esf rf ref dv e hf1 hcf hf2 hf3 hc2f hf4 hdf hf5]
    exact ⟨rfl, hsim, fun P M S hne => ⟨hne, rfl, rfl⟩⟩
  have hsim5 : sim 3 rsg rsf = true := by
    have hcr : childRole 2 "responses" = 3 := by simp [childRole]
    rw [hcr] at hsim5
    exact hsim5
  rcases sim_pySet rsg rsf (newResponseEntry dv n) (newResponseEntry dv n) (toString sc)
    hsim5 (sim_refl 4 _) with ⟨hg6, hf6⟩ | ⟨xs6, ys6, hxg, hxf, hg6, hf6, hstore⟩
  · rw [umr_eq11 p m n sc g pig esg rg reg dv rsg PyErr.typeError hg1 hcg hg2 hg3 hc2g hg4 hdg hg5 hg6,
      umr_eq11 p m n sc f pif esf rf ref dv rsf PyErr.typeError hf1 hcf hf2 hf3 hc2f hf4 hdf hf5 hf6]
    exact ⟨rfl, hsim, fun P M S hne => ⟨hne, rfl, rfl⟩⟩
  subst hxg
  subst hxf
  rw [umr_eq12 p m n sc g pig esg rg reg dv _ _ hg1 hcg hg2 hg3 hc2g hg4 hdg hg5 hg6,
    umr_eq12 p m n sc f pif esf rf ref dv _ _ hf1 hcf hf2 hf3 hc2f hf4 hdf hf5 hf6]
  obtain ⟨pkvsg, rfl, hglp⟩ := pyIndex_ok _ _ _ hg1
  obtain ⟨pkvsf, rfl, hflp⟩ := pyIndex_ok _ _ _ hf1
  obtain ⟨mkvsg, rfl, hglm⟩ := pyIndex_ok _ _ _ hg2
  obtain ⟨mkvsf, rfl, hflm⟩ := pyIndex_ok _ _ _ hf2
  obtain ⟨okvsg, rfl, hgresp⟩ := pyGet_ok _ _ _ _ hg3
  obtain ⟨okvsf, rfl, hfresp⟩ := pyGet_ok _ _ _ _ hf3
  have hglo := pyIndex_obj_ok _ _ _ hg5
  have hflo := pyIndex_obj_ok _ _ _ hf5
  have hgres : jsonStore (Json.obj pkvsg) p (jsonStore (Json.obj mkvsg) m
      (jsonStore (Json.obj okvsg) "responses"
        (Json.obj (astore xs6 (toString sc) (newResponseEntry dv n))))) =
      storeChain p m (toString sc) pkvsg mkvsg okvsg xs6 (newResponseEntry dv n) := by
    simp [jsonStore, storeChain]
  have hfres : jsonStore (Json.obj pkvsf) p (jsonStore (Json.obj mkvsf) m
      (jsonStore (Json.obj okvsf) "responses"
        (Json.obj (astore ys6 (toString sc) (newResponseEntry dv n))))) =
      storeChain p m (toString sc) pkvsf mkvsf okvsf ys6 (newResponseEntry dv n) := by
    simp [jsonStore, storeChain]
  rw [hgres, hfres]
  have hkg : simKVs 0 pkvsg pkvsf = true := sim_obj_kvs 0 (by omega) _ _ hsim
  have hkm : simKVs 1 mkvsg mkvsf = true := sim_obj_kvs 1 (by omega) _ _ hsim1
  have hko : simKVs 2 okvsg okvsf = true := sim_obj_kvs 2 (by omega) _ _ hsim2
  have hs3 : sim 3 (Json.obj (astore xs6 (toString sc) (newResponseEntry dv n)))
      (Json.obj (astore ys6 (toString sc) (newResponseEntry dv n))) = true :=
    sim_of_kvs 3 (by omega) _ _ hstore
  have hs2kvs : simKVs 2 (astore okvsg "responses"
        (Json.obj (astore xs6 (toString sc) (newResponseEntry dv n))))
      (astore okvsf "responses"
        (Json.obj (astore ys6 (toString sc) (newResponseEntry dv n)))) = true := by
    refine simKVs_astore 2 _ _ _ _ _ hko ?_
    have hcr : childRole 2 "responses" = 3 := by simp [childRole]
    rw [hcr]
    exact hs3
  have hs1kvs : simKVs 1 (astore mkvsg m (Json.obj (astore okvsg "responses"
        (Json.obj (astore xs6 (toString sc) (newResponseEntry dv n))))))
      (astore mkvsf m (Json.obj (astore okvsf "responses"
        (Json.obj (astore ys6 (toString sc) (newResponseEntry dv n)))))) = true := by
    refine simKVs_astore 1 _ _ _ _ _ hkm ?_
    exact sim_of_kvs 2 (by omega) _ _ hs2kvs
  have hs0kvs : simKVs 0 (astore pkvsg p (Json.obj (astore mkvsg m (Json.obj (astore okvsg
        "responses" (Json.obj (astore xs6 (toString sc) (newResponseEntry dv n))))))))
      (astore pkvsf p (Json.obj (astore mkvsf m (Json.obj (astore okvsf
        "responses" (Json.obj (astore ys6 (toString sc) (newResponseEntry dv n))))))))
      = true := by
    refine simKVs_astore 0 _ _ _ _ _ hkg ?_
    exact sim_of_kvs 1 (by omega) _ _ hs1kvs
  refine ⟨rfl, sim_of_kvs 0 (by omega) _ _ hs0kvs, ?_⟩
  intro P M S hne
  by_cases ht : P = p ∧ M = m ∧ S = toString sc
  · exfalso
    obtain ⟨rfl, rfl, rfl⟩ := ht
    apply hne
    show respAt (storeChain _ _ _ _ _ _ _ _) _ _ _ =
      respAt (storeChain _ _ _ _ _ _ _ _) _ _ _
    rw [respAt_storeChain_self, respAt_storeChain_self]
  · have hfrg := respAt_storeChain_frame p m (toString sc) pkvsg mkvsg okvsg xs6
      (newResponseEntry dv n) hglp hglm hglo P M S ht
    have hfrf := respAt_storeChain_frame p m (toString sc) pkvsf mkvsf okvsf ys6
      (newResponseEntry dv n) hflp hflm hflo P M S ht
    refine ⟨?_, hfrf, hfrg⟩
    intro heq
    apply hne
    show respAt (storeChain _ _ _ _ _ _ _ _) _ _ _ =
      respAt (storeChain _ _ _ _ _ _ _ _) _ _ _
    rw [hfrg, hfrf]
    exact heq

theorem runMethods_cons_ok2 (path n : String) (sc : Int) (m : String)
    (rest : List String) (x p2 : Json) (l2 : Log)
    (hc : update_method_response path (asciiLower m) n sc x = (p2, l2, none)) :
    runMethods path n sc (m :: rest) x =
      ((runMethods path n sc rest p2).1,
        l2 ++ (runMethods path n sc rest p2).2.1,
        (runMethods path n sc rest p2).2.2) := by
  rw [runMethods, hc]

theorem runRoutes_cons_eq (x : Json) (r : Route) (rest : List Route) :
    runRoutes x (r :: rest) =
      ((runRoutes (handleRoute x r).1 rest).1,
        (handleRoute x r).2 ++ (runRoutes (handleRoute x r).1 rest).2) := by
  rw [runRoutes]

/-- Congruence of the methods loop under similarity. -/
theorem runMethods_sim (path n : String) (sc : Int) (ms : List String) (g f : Json)
    (hsim : sim 0 g f = true) :
    (runMethods path n sc ms g).2 = (runMethods path n sc ms f).2
    ∧ sim 0 (runMethods path n sc ms g).1 (runMethods path n sc ms f).1
    ∧ ∀ P M S, respAt (runMethods path n sc ms g).1 P M S ≠
        respAt (runMethods path n sc ms f).1 P M S →
        (respAt g P M S ≠ respAt f P M S
         ∧ respAt (runMethods path n sc ms f).1 P M S = respAt f P M S
         ∧ respAt (runMethods path n sc ms g).1 P M S = respAt g P M S) := by
  induction ms generalizing g f with
  | nil => exact ⟨rfl, hsim, fun P M S hne => ⟨hne, rfl, rfl⟩⟩
  | cons m rest ih =>
      obtain ⟨hl, hsimstep, htriple⟩ := umr_sim path (asciiLower m) n sc g f hsim
      rcases hcg : update_method_response path (asciiLower m) n sc g with ⟨g2, lg, eg⟩
      rcases hcf : update_method_response path (asciiLower m) n sc f with ⟨f2, lf, ef⟩
      rw [hcg, hcf] at hl hsimstep
      rw [hcg, hcf] at htriple
      simp only at hl hsimstep htriple
      obtain ⟨rfl, rfl⟩ : lg = lf ∧ eg = ef := by
        have h1 := congrArg Prod.fst hl
        have h2 := congrArg Prod.snd hl
        exact ⟨h1, h2⟩
      cases eg with
      | some e =>
          rw [runMethods_cons_err path n sc m rest g g2 lg e hcg,
            runMethods_cons_err path n sc m rest f f2 lg e hcf]
          exact ⟨rfl, hsimstep, htriple⟩
      | none =>
          rw [runMethods_cons_ok2 path n sc m rest g g2 lg hcg,
            runMethods_cons_ok2 path n sc m rest f f2 lg hcf]
          obtain ⟨hl2, hsim2, htriple2⟩ := ih g2 f2 hsimstep
          refine ⟨?_, hsim2, ?_⟩
          · simp only
            rw [congrArg Prod.fst hl2, congrArg Prod.snd hl2]
          · intro P M S hne
            simp only at hne
            obtain ⟨hd2, hf2eq, hg2eq⟩ := htriple2 P M S hne
            obtain ⟨hd1, hf1eq, hg1eq⟩ := htriple P M S hd2
            exact ⟨hd1, hf2eq.trans hf1eq, hg2eq.trans hg1eq⟩

theorem processRoute_path_err (paths : Json) (r : Route) (ep : Endpoint)
    (hints : List (String × TypeExpr)) (rt : TypeExpr) (n : String) (e : PyErr)
    (hh : ep.hints = Except.ok hints)
    (h1 : alookup hints "return" = some rt) (h2 : extract_struct rt = some n)
    (hin : pyContains paths r.path = Except.error e) :
    processRoute paths r ep = (paths, [], some e) := by
  simp [processRoute, hh, h1, h2, hin]

theorem processRoute_path_absent (paths : Json) (r : Route) (ep : Endpoint)
    (hints : List (String × TypeExpr)) (rt : TypeExpr) (n : String)
    (hh : ep.hints = Except.ok hints)
    (h1 : alookup hints "return" = some rt) (h2 : extract_struct rt = some n)
    (hin : pyContains paths r.path = Except.ok false) :
    processRoute paths r ep = (paths, [LogLevel.debug], none) := by
  simp [processRoute, hh, h1, h2, hin]

theorem processRoute_to_methods (paths : Json) (r : Route) (ep : Endpoint)
    (hints : List (String × TypeExpr)) (rt : TypeExpr) (n : String)
    (hh : ep.hints = Except.ok hints)
    (h1 : alookup hints "return" = some rt) (h2 : extract_struct rt = some n)
    (hin : pyContains paths r.path = Except.ok true) :
    processRoute paths r ep =
      runMethods r.path n (statusOr200 r.status_code) r.methods paths := by
  simp [processRoute, hh, h1, h2, hin]

theorem handleRoute_skip (x : Json) (r : Route) (hA : r.isAPIRoute = false) :
    handleRoute x r = (x, []) := by
  simp [handleRoute, hA]

theorem handleRoute_noep (x : Json) (r : Route) (hA : ¬ r.isAPIRoute = false)
    (hep : r.endpoint = none) : handleRoute x r = (x, []) := by
  simp [handleRoute, hA, hep]

theorem handleRoute_pok (x : Json) (r : Route) (ep : Endpoint) (p2 : Json) (l2 : Log)
    (hA : ¬ r.isAPIRoute = false) (hep : r.endpoint = some ep)
    (hp : processRoute x r ep = (p2, l2, none)) :
    handleRoute x r = (p2, l2) := by
  simp [handleRoute, hA, hep, hp]

theorem handleRoute_perr (x : Json) (r : Route) (ep : Endpoint) (p2 : Json) (l2 : Log)
    (e : PyErr) (hA : ¬ r.isAPIRoute = false) (hep : r.endpoint = some ep)
    (hp : processRoute x r ep = (p2, l2, some e)) :
    handleRoute x r = (p2, l2 ++ (match e with
      | PyErr.nameError => [LogLevel.debug]
      | PyErr.attributeError => [LogLevel.debug]
      | _ => [LogLevel.error])) := by
  cases e <;> simp [handleRoute, hA, hep, hp]

/-- Congruence of one try-block under similarity. -/
theorem processRoute_sim (r : Route) (ep : Endpoint) (g f : Json)
    (hsim : sim 0 g f = true) :
    (processRoute g r ep).2 = (processRoute f r ep).2
    ∧ sim 0 (processRoute g r ep).1 (processRoute f r ep).1
    ∧ ∀ P M S, respAt (processRoute g r ep).1 P M S ≠
        respAt (processRoute f r ep).1 P M S →
        (respAt g P M S ≠ respAt f P M S
         ∧ respAt (processRoute f r ep).1 P M S = respAt f P M S
         ∧ respAt (processRoute g r ep).1 P M S = respAt g P M S) := by
  cases hh : ep.hints with
  | error e =>
      rw [processRoute_hints_error g r ep e hh, processRoute_hints_error f r ep e hh]
      exact ⟨rfl, hsim, fun P M S hne => ⟨hne, rfl, rfl⟩⟩
  | ok hints =>
      cases h0 : alookup hints "return" with
      | none =>
          rw [processRoute_no_return g r ep hints hh h0,
            processRoute_no_return f r ep hints hh h0]
          exact ⟨rfl, hsim, fun P M S hne => ⟨hne, rfl, rfl⟩⟩
      | some rt =>
          cases h2 : extract_struct rt with
          | none =>
              rw [processRoute_no_struct g r ep hints rt hh h0 h2,
                processRoute_no_struct f r ep hints rt hh h0 h2]
              exact ⟨rfl, hsim, fun P M S hne => ⟨hne, rfl, rfl⟩⟩
          | some n =>
              have hpc := sim_pyContains 0 (by omega) g f r.path hsim
              cases hin : pyContains f r.path with
              | error e =>
                  have hin2 : pyContains g r.path = Except.error e := hpc.trans hin
                  rw [processRoute_path_err g r ep hints rt n e hh h0 h2 hin2,
                    processRoute_path_err f r ep hints rt n e hh h0 h2 hin]
                  exact ⟨rfl, hsim, fun P M S hne => ⟨hne, rfl, rfl⟩⟩
              | ok b =>
                  have hin2 : pyContains g r.path = Except.ok b := hpc.trans hin
                  cases b with
                  | false =>
                      rw [processRoute_path_absent g r ep hints rt n hh h0 h2 hin2,
                        processRoute_path_absent f r ep hints rt n hh h0 h2 hin]
                      exact ⟨rfl, hsim, fun P M S hne => ⟨hne, rfl, rfl⟩⟩
                  | true =>
                      rw [processRoute_to_methods g r ep hints rt n hh h0 h2 hin2,
                        processRoute_to_methods f r ep hints rt n hh h0 h2 hin]
                      exact runMethods_sim r.path n (statusOr200 r.status_code)
                        r.methods g f hsim

/-- Congruence of one loop iteration under similarity. -/
theorem handleRoute_sim (r : Route) (g f : Json) (hsim : sim 0 g f = true) :
    (handleRoute g r).2 = (handleRoute f r).2
    ∧ sim 0 (handleRoute g r).1 (handleRoute f r).1
    ∧ ∀ P M S, respAt (handleRoute g r).1 P M S ≠ respAt (handleRoute f r).1 P M S →
        (respAt g P M S ≠ respAt f P M S
         ∧ respAt (handleRoute f r).1 P M S = respAt f P M S
         ∧ respAt (handleRoute g r).1 P M S = respAt g P M S) := by
  by_cases hA : r.isAPIRoute = false
  · rw [handleRoute_skip g r hA, handleRoute_skip f r hA]
    exact ⟨rfl, hsim, fun P M S hne => ⟨hne, rfl, rfl⟩⟩
  · cases hep : r.endpoint with
    | none =>
        rw [handleRoute_noep g r hA hep, handleRoute_noep f r hA hep]
        exact ⟨rfl, hsim, fun P M S hne => ⟨hne, rfl, rfl⟩⟩
    | some ep =>
        obtain ⟨hl, hsim2, htriple⟩ := processRoute_sim r ep g f hsim
        rcases hpg : processRoute g r ep with ⟨g2, lg, eg⟩
        rcases hpf : processRoute f r ep with ⟨f2, lf, ef⟩
        rw [hpg, hpf] at hl hsim2 htriple
        simp only at hl hsim2 htriple
        obtain ⟨rfl, rfl⟩ : lg = lf ∧ eg = ef :=
          ⟨congrArg Prod.fst hl, congrArg Prod.snd hl⟩
        cases eg with
        | none =>
            rw [handleRoute_pok g r ep g2 lg hA hep hpg,
              handleRoute_pok f r ep f2 lg hA hep hpf]
            exact ⟨rfl, hsim2, htriple⟩
        | some e =>
            cases e <;>
              (rw [handleRoute_perr g r ep g2 lg _ hA hep hpg,
                handleRoute_perr f r ep f2 lg _ hA hep hpf]
               exact ⟨rfl, hsim2, htriple⟩)

/-- Congruence of the whole route loop under similarity: equal logs, similar
final documents, and every location where the two runs disagree was already a
disagreement of the inputs that neither run touched. -/
theorem runRoutes_sim (rs : List Route) (g f : Json) (hsim : sim 0 g f = true) :
    (runRoutes g rs).2 = (runRoutes f rs).2
    ∧ sim 0 (runRoutes g rs).1 (runRoutes f rs).1
    ∧ ∀ P M S, respAt (runRoutes g rs).1 P M S ≠ respAt (runRoutes f rs).1 P M S →
        (respAt g P M S ≠ respAt f P M S
         ∧ respAt (runRoutes f rs).1 P M S = respAt f P M S
         ∧ respAt (runRoutes g rs).1 P M S = respAt g P M S) := by
  induction rs generalizing g f with
  | nil => exact ⟨rfl, hsim, fun P M S hne => ⟨hne, rfl, rfl⟩⟩
  | cons r rest ih =>
      obtain ⟨hl, hsim1, htriple⟩ := handleRoute_sim r g f hsim
      obtain ⟨hl2, hsim2, htriple2⟩ := ih (handleRoute g r).1 (handleRoute f r).1 hsim1
      rw [runRoutes_cons_eq g r rest, runRoutes_cons_eq f r rest]
      refine ⟨?_, hsim2, ?_⟩
      · simp only
        rw [hl, hl2]
      · intro P M S hne
        simp only at hne
        obtain ⟨hd2, hf2eq, hg2eq⟩ := htriple2 P M S hne
        obtain ⟨hd1, hf1eq, hg1eq⟩ := htriple P M S hd2
        exact ⟨hd1, hf2eq.trans hf1eq, hg2eq.trans hg1eq⟩

theorem simKVs_evolve (role : Nat) : ∀ (kvs : List (String × Json)) (k : String)
    (w v : Json), alookup kvs k = some w → sim (childRole role k) w v = true →
    simKVs role kvs (astore kvs k v) = true := by
  intro kvs
  induction kvs with
  | nil => intro k w v hl _; simp [alookup] at hl
  | cons q rest ih =>
      rcases q with ⟨k0, v0⟩
      intro k w v hl hv
      by_cases hk : k0 = k
      · subst hk
        simp [alookup] at hl
        subst hl
        simp [astore, simKVs, hv, simKVs_refl]
      · simp [alookup, hk] at hl
        simp [astore, hk, simKVs, sim_refl, ih k w v hl hv]

/-- Replacing a response entry by a similar value yields a similar path map. -/
theorem sim_evolve_write (p m s : String)
    (pkvs mkvs okvs rkvs ekvs : List (String × Json)) (v : Json)
    (h1 : alookup pkvs p = some (Json.obj mkvs))
    (h2 : alookup mkvs m = some (Json.obj okvs))
    (h3 : alookup okvs "responses" = some (Json.obj rkvs))
    (h4 : alookup rkvs s = some (Json.obj ekvs))
    (hv : sim 4 (Json.obj ekvs) v = true) :
    sim 0 (Json.obj pkvs) (storeChain p m s pkvs mkvs okvs rkvs v) = true := by
  have e1 : childRole 0 p = 1 := by simp [childRole]
  have e2 : childRole 1 m = 2 := by simp [childRole]
  have e3 : childRole 2 "responses" = 3 := by simp [childRole]
  have e4 : childRole 3 s = 4 := by simp [childRole]
  refine sim_of_kvs 0 (by omega) _ _ (simKVs_evolve 0 pkvs p _ _ h1 ?_)
  rw [e1]
  refine sim_of_kvs 1 (by omega) _ _ (simKVs_evolve 1 mkvs m _ _ h2 ?_)
  rw [e2]
  refine sim_of_kvs 2 (by omega) _ _ (simKVs_evolve 2 okvs "responses" _ _ h3 ?_)
  rw [e3]
  refine sim_of_kvs 3 (by omega) _ _ (simKVs_evolve 3 rkvs s _ _ h4 ?_)
  rw [e4]
  exact hv

/-- The rewritten response entry is role-4 similar to the entry it replaces:
both resolve to the same description. -/
theorem sim4_newEntry (ekvs : List (String × Json)) (n : String) :
    sim 4 (Json.obj ekvs) (newResponseEntry (descOf ekvs) n) = true := by
  simp [sim, newResponseEntry, descOf, alookup]

/-- One method-response update evolves the path map inside similarity. -/
theorem umr_evolve (p m n : String) (sc : Int) (x : Json) :
    sim 0 x (update_method_response p m n sc x).1 = true := by
  rcases umr_cases p m n sc x with h | ⟨pkvs, mkvs, okvs, rkvs, ekvs, hshape, heq⟩
  · rw [h]; exact sim_refl 0 x
  · obtain ⟨hx, h1, h2, h3, h4⟩ := hshape
    rw [heq]
    simp only
    rw [hx]
    exact sim_evolve_write p m (toString sc) pkvs mkvs okvs rkvs ekvs _ h1 h2 h3 h4
      (sim4_newEntry ekvs n)

theorem runMethods_evolve (path n : String) (sc : Int) (ms : List String) :
    ∀ x : Json, sim 0 x (runMethods path n sc ms x).1 = true := by
  induction ms with
  | nil => intro x; exact sim_refl 0 x
  | cons m rest ih =>
      intro x
      rcases hc : update_method_response path (asciiLower m) n sc x with ⟨p2, l2, err⟩
      have h1 : sim 0 x p2 = true := by
        have h := umr_evolve path (asciiLower m) n sc x
        rw [hc] at h; exact h
      cases err with
      | some e =>
          rw [runMethods_cons_err path n sc m rest x p2 l2 e hc]
          exact h1
      | none =>
          rw [runMethods_cons_ok2 path n sc m rest x p2 l2 hc]
          exact sim_trans 0 x p2 _ h1 (ih p2)

theorem processRoute_evolve (r : Route) (ep : Endpoint) (x : Json) :
    sim 0 x (processRoute x r ep).1 = true := by
  cases hh : ep.hints with
  | error e => rw [processRoute_hints_error x r ep e hh]; exact sim_refl 0 x
  | ok hints =>
      cases h0 : alookup hints "return" with
      | none => rw [processRoute_no_return x r ep hints hh h0]; exact sim_refl 0 x
      | some rt =>
          cases h2 : extract_struct rt with
          | none =>
              rw [processRoute_no_struct x r ep hints rt hh h0 h2]
              exact sim_refl 0 x
          | some n =>
              cases hin : pyContains x r.path with
              | error e =>
                  rw [processRoute_path_err x r ep hints rt n e hh h0 h2 hin]
                  exact sim_refl 0 x
              | ok b =>
                  cases b with
                  | false =>
                      rw [processRoute_path_absent x r ep hints rt n hh h0 h2 hin]
                      exact sim_refl 0 x
                  | true =>
                      rw [processRoute_to_methods x r ep hints rt n hh h0 h2 hin]
                      exact runMethods_evolve r.path n (statusOr200 r.status_code)
                        r.methods x

theorem handleRoute_evolve (r : Route) (x : Json) :
    sim 0 x (handleRoute x r).1 = true := by
  by_cases hA : r.isAPIRoute = false
  · rw [handleRoute_skip x r hA]; exact sim_refl 0 x
  · cases hep : r.endpoint with
    | none => rw [handleRoute_noep x r hA hep]; exact sim_refl 0 x
    | some ep =>
        have h := processRoute_evolve r ep x
        rcases hp : processRoute x r ep with ⟨p2, l2, err⟩
        rw [hp] at h
        cases err with
        | none => rw [handleRoute_pok x r ep p2 l2 hA hep hp]; exact h
        | some e =>
            cases e <;> (rw [handleRoute_perr x r ep p2 l2 _ hA hep hp]; exact h)

/-- The whole route loop evolves the path map inside similarity. -/
theorem runRoutes_evolve (rs : List Route) : ∀ x : Json,
    sim 0 x (runRoutes x rs).1 = true := by
  induction rs with
  | nil => intro x; exact sim_refl 0 x
  | cons r rest ih =>
      intro x
      rw [runRoutes_cons_eq x r rest]
      exact sim_trans 0 x (handleRoute x r).1 _ (handleRoute_evolve r x)
        (ih (handleRoute x r).1)

theorem all_fst_of_keys (p : String → Bool) : ∀ (xs ys : List (String × Json)),
    xs.map Prod.fst = ys.map Prod.fst →
    xs.all (fun kv => p kv.1) = ys.all (fun kv => p kv.1) := by
  intro xs
  induction xs with
  | nil => intro ys h; cases ys with
      | nil => rfl
      | cons q ys => simp at h
  | cons q xs ih =>
      intro ys h
      cases ys with
      | nil => simp at h
      | cons q2 ys =>
          simp only [List.map_cons, List.cons.injEq] at h
          obtain ⟨hk, hrest⟩ := h
          simp only [List.all_cons, hk]
          rw [ih ys hrest]

theorem keysFresh_of_keys : ∀ (xs ys : List (String × Json)),
    xs.map Prod.fst = ys.map Prod.fst → keysFresh xs = keysFresh ys := by
  intro xs
  induction xs with
  | nil => intro ys h; cases ys with
      | nil => rfl
      | cons q ys => simp at h
  | cons q xs ih =>
      intro ys h
      cases ys with
      | nil => simp at h
      | cons q2 ys =>
          obtain ⟨k, v⟩ := q
          obtain ⟨k2, w⟩ := q2
          simp only [List.map_cons, List.cons.injEq] at h
          obtain ⟨rfl, hrest⟩ := h
          show (xs.all (fun kv => !(kv.1 = k)) && keysFresh xs)
            = (ys.all (fun kv => !(kv.1 = k)) && keysFresh ys)
          rw [all_fst_of_keys (fun x => !(x = k)) xs ys hrest, ih ys hrest]

theorem alookup_none_of_all : ∀ (xs : List (String × Json)) (k : String),
    xs.all (fun kv => !(kv.1 = k)) = true → alookup xs k = none := by
  intro xs
  induction xs with
  | nil => intro k h; rfl
  | cons q rest ih =>
      intro k h
      obtain ⟨k0, v0⟩ := q
      simp only [List.all_cons, Bool.and_eq_true] at h
      have hne : ¬ k0 = k := by simpa using h.1
      simp only [alookup, if_neg hne]
      exact ih k h.2

theorem respNodup_sim (a b : Json) (h : sim 3 a b = true) :
    respNodup a = respNodup b := by
  rcases sim_cases 3 a b h with ⟨xs, ys, rfl, rfl⟩ | rfl
  · have hk := simKVs_keys 3 xs ys (sim_obj_kvs 3 (by omega) xs ys h)
    show keysFresh xs = keysFresh ys
    exact keysFresh_of_keys xs ys hk
  · rfl

theorem opAll_sim : ∀ (xs ys : List (String × Json)), simKVs 2 xs ys = true →
    xs.all (fun kv => if kv.1 = "responses" then respNodup kv.2 else true)
      = ys.all (fun kv => if kv.1 = "responses" then respNodup kv.2 else true) := by
  intro xs
  induction xs with
  | nil => intro ys h; cases ys with
      | nil => rfl
      | cons q ys => simp [simKVs] at h
  | cons q xs ih =>
      intro ys h
      obtain ⟨k, v⟩ := q
      cases ys with
      | nil => simp [simKVs] at h
      | cons q2 ys =>
          obtain ⟨k2, w⟩ := q2
          simp only [simKVs, Bool.and_eq_true, decide_eq_true_eq] at h
          obtain ⟨⟨hk, hvw⟩, hrest⟩ := h
          subst hk
          by_cases hr : k = "responses"
          · subst hr
            have hc : childRole 2 "responses" = 3 := by simp [childRole]
            rw [hc] at hvw
            simp only [List.all_cons, if_pos rfl]
            rw [respNodup_sim v w hvw, ih ys hrest]
          · simp only [List.all_cons, if_neg hr]
            rw [ih ys hrest]

theorem opNodup_sim (a b : Json) (h : sim 2 a b = true) :
    opNodup a = opNodup b := by
  rcases sim_cases 2 a b h with ⟨xs, ys, rfl, rfl⟩ | rfl
  · have hkv := sim_obj_kvs 2 (by omega) xs ys h
    have hk := simKVs_keys 2 xs ys hkv
    show (keysFresh xs && _) = (keysFresh ys && _)
    rw [keysFresh_of_keys xs ys hk, opAll_sim xs ys hkv]
  · rfl

theorem piAll_sim : ∀ (xs ys : List (String × Json)), simKVs 1 xs ys = true →
    xs.all (fun kv => opNodup kv.2) = ys.all (fun kv => opNodup kv.2) := by
  intro xs
  induction xs with
  | nil => intro ys h; cases ys with
      | nil => rfl
      | cons q ys => simp [simKVs] at h
  | cons q xs ih =>
      intro ys h
      obtain ⟨k, v⟩ := q
      cases ys with
      | nil => simp [simKVs] at h
      | cons q2 ys =>
          obtain ⟨k2, w⟩ := q2
          simp only [simKVs, Bool.and_eq_true, decide_eq_true_eq] at h
          obtain ⟨⟨hk, hvw⟩, hrest⟩ := h
          subst hk
          have hc : childRole 1 k = 2 := by simp [childRole]
          rw [hc] at hvw
          simp only [List.all_cons]
          rw [opNodup_sim v w hvw, ih ys hrest]

theorem piNodup_sim (a b : Json) (h : sim 1 a b = true) :
    piNodup a = piNodup b := by
  rcases sim_cases 1 a b h with ⟨xs, ys, rfl, rfl⟩ | rfl
  · have hkv := sim_obj_kvs 1 (by omega) xs ys h
    have hk := simKVs_keys 1 xs ys hkv
    show (keysFresh xs && _) = (keysFresh ys && _)
    rw [keysFresh_of_keys xs ys hk, piAll_sim xs ys hkv]
  · rfl

theorem pathsAll_sim : ∀ (xs ys : List (String × Json)), simKVs 0 xs ys = true →
    xs.all (fun kv => piNodup kv.2) = ys.all (fun kv => piNodup kv.2) := by
  intro xs
  induction xs with
  | nil => intro ys h; cases ys with
      | nil => rfl
      | cons q ys => simp [simKVs] at h
  | cons q xs ih =>
      intro ys h
      obtain ⟨k, v⟩ := q
      cases ys with
      | nil => simp [simKVs] at h
      | cons q2 ys =>
          obtain ⟨k2, w⟩ := q2
          simp only [simKVs, Bool.and_eq_true, decide_eq_true_eq] at h
          obtain ⟨⟨hk, hvw⟩, hrest⟩ := h
          subst hk
          have hc : childRole 0 k = 1 := by simp [childRole]
          rw [hc] at hvw
          simp only [List.all_cons]
          rw [piNodup_sim v w hvw, ih ys hrest]

theorem pathsNodup_sim (a b : Json) (h : sim 0 a b = true) :
    pathsNodup a = pathsNodup b := by
  rcases sim_cases 0 a b h with ⟨xs, ys, rfl, rfl⟩ | rfl
  · have hkv := sim_obj_kvs 0 (by omega) xs ys h
    have hk := simKVs_keys 0 xs ys hkv
    show (keysFresh xs && _) = (keysFresh ys && _)
    rw [keysFresh_of_keys xs ys hk, pathsAll_sim xs ys hkv]
  · rfl

theorem respAt_obj (pkvs : List (String × Json)) (P M S : String) :
    respAt (Json.obj pkvs) P M S =
      (match alookup pkvs P with
       | some pi1 => respIn1 pi1 M S
       | none => none) := by
  simp only [respAt, opKeyAt, methodAt, pathAt]
  cases alookup pkvs P with
  | none => rfl
  | some pi1 =>
      cases pi1 <;> simp only [respIn1] <;> try rfl
      rename_i mkvs
      cases alookup mkvs M with
      | none => rfl
      | some o =>
          cases o <;> simp only [respIn2] <;> try rfl
          rename_i okvs
          cases alookup okvs "responses" with
          | none => rfl
          | some rr => cases rr <;> rfl

theorem sim5_eq (v w : Json) (h : sim 5 v w = true) : v = w := by
  rcases sim_cases 5 v w h with ⟨xs, ys, rfl, rfl⟩ | rfl
  · have hb : Json.beq (Json.obj xs) (Json.obj ys) = true := by
      simpa [sim] using h
    exact (Json.beq_iff _ _).mp hb
  · rfl

theorem extract3 : ∀ (xs ys : List (String × Json)), simKVs 3 xs ys = true →
    keysFresh xs = true → (∀ S, alookup xs S = alookup ys S) → xs = ys := by
  intro xs
  induction xs with
  | nil => intro ys hs _ _; cases ys with
      | nil => rfl
      | cons q ys => simp [simKVs] at hs
  | cons q rest ih =>
      intro ys hs hf he
      obtain ⟨k, v⟩ := q
      cases ys with
      | nil => simp [simKVs] at hs
      | cons q2 ys2 =>
          obtain ⟨k2, w⟩ := q2
          simp only [simKVs, Bool.and_eq_true, decide_eq_true_eq] at hs
          obtain ⟨⟨hk, _⟩, hrest⟩ := hs
          subst hk
          have hv : v = w := by
            have h0 := he k
            simpa [alookup] using h0
          subst hv
          have hf2 : rest.all (fun kv => !(kv.1 = k)) = true ∧ keysFresh rest = true := by
            have := hf
            rw [keysFresh, Bool.and_eq_true] at this
            exact this
          have hkeys := simKVs_keys 3 rest ys2 hrest
          have hall2 : ys2.all (fun kv => !(kv.1 = k)) = true := by
            rw [← all_fst_of_keys (fun x => !(x = k)) rest ys2 hkeys]
            exact hf2.1
          have he2 : ∀ S, alookup rest S = alookup ys2 S := by
            intro S
            by_cases hS : S = k
            · subst hS
              rw [alookup_none_of_all rest S hf2.1, alookup_none_of_all ys2 S hall2]
            · have h0 := he S
              simpa [alookup, Ne.symm hS] using h0
          rw [ih ys2 hrest hf2.2 he2]

theorem extract3v (v w : Json) (hs : sim 3 v w = true) (hn : respNodup v = true)
    (he : ∀ S, respIn3 v S = respIn3 w S) : v = w := by
  rcases sim_cases 3 v w hs with ⟨xs, ys, rfl, rfl⟩ | rfl
  · have hkv := sim_obj_kvs 3 (by omega) xs ys hs
    have hx : xs = ys := extract3 xs ys hkv (by simpa [respNodup] using hn)
      (fun S => by simpa [respIn3] using he S)
    rw [hx]
  · rfl

theorem extract2 : ∀ (xs ys : List (String × Json)), simKVs 2 xs ys = true →
    keysFresh xs = true →
    xs.all (fun kv => if kv.1 = "responses" then respNodup kv.2 else true) = true →
    (∀ S, (match alookup xs "responses" with
           | some rr => respIn3 rr S
           | none => none) =
          (match alookup ys "responses" with
           | some rr => respIn3 rr S
           | none => none)) →
    xs = ys := by
  intro xs
  induction xs with
  | nil => intro ys hs _ _ _; cases ys with
      | nil => rfl
      | cons q ys => simp [simKVs] at hs
  | cons q rest ih =>
      intro ys hs hf ha he
      obtain ⟨k, v⟩ := q
      cases ys with
      | nil => simp [simKVs] at hs
      | cons q2 ys2 =>
          obtain ⟨k2, w⟩ := q2
          simp only [simKVs, Bool.and_eq_true, decide_eq_true_eq] at hs
          obtain ⟨⟨hk, hvw⟩, hrest⟩ := hs
          subst hk
          have hf2 : rest.all (fun kv => !(kv.1 = k)) = true ∧ keysFresh rest = true := by
            have := hf
            rw [keysFresh, Bool.and_eq_true] at this
            exact this
          have hkeys := simKVs_keys 2 rest ys2 hrest
          simp only [List.all_cons, Bool.and_eq_true] at ha
          by_cases hr : k = "responses"
          · subst hr
            have hc : childRole 2 "responses" = 3 := by simp [childRole]
            rw [hc] at hvw
            have hnv : respNodup v = true := by
              have := ha.1
              simpa using this
            have hv : v = w := extract3v v w hvw hnv (fun S => by
              have h0 := he S
              simpa [alookup] using h0)
            subst hv
            have hall2 : ys2.all (fun kv => !(kv.1 = "responses")) = true := by
              rw [← all_fst_of_keys (fun x => !(x = "responses")) rest ys2 hkeys]
              exact hf2.1
            have he2 : ∀ S, (match alookup rest "responses" with
                | some rr => respIn3 rr S
                | none => none) =
               (match alookup ys2 "responses" with
                | some rr => respIn3 rr S
                | none => none) := by
              intro S
              rw [alookup_none_of_all rest "responses" hf2.1,
                alookup_none_of_all ys2 "responses" hall2]
            rw [ih ys2 hrest hf2.2 ha.2 he2]
          · have hc : childRole 2 k = 5 := by simp [childRole, hr]
            rw [hc] at hvw
            have hv : v = w := sim5_eq v w hvw
            subst hv
            have he2 : ∀ S, (match alookup rest "responses" with
                | some rr => respIn3 rr S
                | none => none) =
               (match alookup ys2 "responses" with
                | some rr => respIn3 rr S
                | none => none) := by
              intro S
              have h0 := he S
              simpa [alookup, hr] using h0
            rw [ih ys2 hrest hf2.2 ha.2 he2]

theorem extract2v (v w : Json) (hs : sim 2 v w = true) (hn : opNodup v = true)
    (he : ∀ S, respIn2 v S = respIn2 w S) : v = w := by
  rcases sim_cases 2 v w hs with ⟨xs, ys, rfl, rfl⟩ | rfl
  · have hkv := sim_obj_kvs 2 (by omega) xs ys hs
    have hn2 : (keysFresh xs && xs.all
        (fun kv => if kv.1 = "responses" then respNodup kv.2 else true)) = true := hn
    rw [Bool.and_eq_true] at hn2
    have hx : xs = ys := extract2 xs ys hkv hn2.1 hn2.2
      (fun S => by simpa [respIn2] using he S)
    rw [hx]
  · rfl

theorem extract1 : ∀ (xs ys : List (String × Json)), simKVs 1 xs ys = true →
    keysFresh xs = true → xs.all (fun kv => opNodup kv.2) = true →
    (∀ M S, (match alookup xs M with
             | some o => respIn2 o S
             | none => none) =
            (match alookup ys M with
             | some o => respIn2 o S
             | none => none)) →
    xs = ys := by
  intro xs
  induction xs with
  | nil => intro ys hs _ _ _; cases ys with
      | nil => rfl
      | cons q ys => simp [simKVs] at hs
  | cons q rest ih =>
      intro ys hs hf ha he
      obtain ⟨k, v⟩ := q
      cases ys with
      | nil => simp [simKVs] at hs
      | cons q2 ys2 =>
          obtain ⟨k2, w⟩ := q2
          simp only [simKVs, Bool.and_eq_true, decide_eq_true_eq] at hs
          obtain ⟨⟨hk, hvw⟩, hrest⟩ := hs
          subst hk
          have hc : childRole 1 k = 2 := by simp [childRole]
          rw [hc] at hvw
          have hf2 : rest.all (fun kv => !(kv.1 = k)) = true ∧ keysFresh rest = true := by
            have := hf
            rw [keysFresh, Bool.and_eq_true] at this
            exact this
          have hkeys := simKVs_keys 1 rest ys2 hrest
          simp only [List.all_cons, Bool.and_eq_true] at ha
          have hnv : opNodup v = true := ha.1
          have hv : v = w := extract2v v w hvw hnv (fun S => by
            have h0 := he k S
            simpa [alookup] using h0)
          subst hv
          have hall2 : ys2.all (fun kv => !(kv.1 = k)) = true := by
            rw [← all_fst_of_keys (fun x => !(x = k)) rest ys2 hkeys]
            exact hf2.1
          have he2 : ∀ M S, (match alookup rest M with
              | some o => respIn2 o S
              | none => none) =
             (match alookup ys2 M with
              | some o => respIn2 o S
              | none => none) := by
            intro M S
            by_cases hM : M = k
            · subst hM
              rw [alookup_none_of_all rest M hf2.1, alookup_none_of_all ys2 M hall2]
            · have h0 := he M S
              simpa [alookup, Ne.symm hM] using h0
          rw [ih ys2 hrest hf2.2 ha.2 he2]

theorem extract1v (v w : Json) (hs : sim 1 v w = true) (hn : piNodup v = true)
    (he : ∀ M S, respIn1 v M S = respIn1 w M S) : v = w := by
  rcases sim_cases 1 v w hs with ⟨xs, ys, rfl, rfl⟩ | rfl
  · have hkv := sim_obj_kvs 1 (by omega) xs ys hs
    have hn2 : (keysFresh xs && xs.all (fun kv => opNodup kv.2)) = true := hn
    rw [Bool.and_eq_true] at hn2
    have hx : xs = ys := extract1 xs ys hkv hn2.1 hn2.2
      (fun M S => by simpa [respIn1] using he M S)
    rw [hx]
  · rfl

theorem extract0 : ∀ (xs ys : List (String × Json)), simKVs 0 xs ys = true →
    keysFresh xs = true → xs.all (fun kv => piNodup kv.2) = true →
    (∀ P M S, (match alookup xs P with
               | some pi1 => respIn1 pi1 M S
               | none => none) =
              (match alookup ys P with
               | some pi1 => respIn1 pi1 M S
               | none => none)) →
    xs = ys := by
  intro xs
  induction xs with
  | nil => intro ys hs _ _ _; cases ys with
      | nil => rfl
      | cons q ys => simp [simKVs] at hs
  | cons q rest ih =>
      intro ys hs hf ha he
      obtain ⟨k, v⟩ := q
      cases ys with
      | nil => simp [simKVs] at hs
      | cons q2 ys2 =>
          obtain ⟨k2, w⟩ := q2
          simp only [simKVs, Bool.and_eq_true, decide_eq_true_eq] at hs
          obtain ⟨⟨hk, hvw⟩, hrest⟩ := hs
          subst hk
          have hc : childRole 0 k = 1 := by simp [childRole]
          rw [hc] at hvw
          have hf2 : rest.all (fun kv => !(kv.1 = k)) = true ∧ keysFresh rest = true := by
            have := hf
            rw [keysFresh, Bool.and_eq_true] at this
            exact this
          have hkeys := simKVs_keys 0 rest ys2 hrest
          simp only [List.all_cons, Bool.and_eq_true] at ha
          have hnv : piNodup v = true := ha.1
          have hv : v = w := extract1v v w hvw hnv (fun M S => by
            have h0 := he k M S
            simpa [alookup] using h0)
          subst hv
          have hall2 : ys2.all (fun kv => !(kv.1 = k)) = true := by
            rw [← all_fst_of_keys (fun x => !(x = k)) rest ys2 hkeys]
            exact hf2.1
          have he2 : ∀ P M S, (match alookup rest P with
              | some pi1 => respIn1 pi1 M S
              | none => none) =
             (match alookup ys2 P with
              | some pi1 => respIn1 pi1 M S
              | none => none) := by
            intro P M S
            by_cases hP : P = k
            · subst hP
              rw [alookup_none_of_all rest P hf2.1, alookup_none_of_all ys2 P hall2]
            · have h0 := he P M S
              simpa [alookup, Ne.symm hP] using h0
          rw [ih ys2 hrest hf2.2 ha.2 he2]

/-- A path map with the Python-dictionary no-duplicate-key invariant is
determined, among its similarity class, by its response entries. -/
theorem sim_extract (a b : Json) (hs : sim 0 a b = true) (hn : pathsNodup a = true)
    (he : ∀ P M S, respAt a P M S = respAt b P M S) : a = b := by
  rcases sim_cases 0 a b hs with ⟨xs, ys, rfl, rfl⟩ | rfl
  · have hkv := sim_obj_kvs 0 (by omega) xs ys hs
    have hn2 : (keysFresh xs && xs.all (fun kv => piNodup kv.2)) = true := hn
    rw [Bool.and_eq_true] at hn2
    have hx : xs = ys := extract0 xs ys hkv hn2.1 hn2.2 (fun P M S => by
      have h0 := he P M S
      rw [respAt_obj, respAt_obj] at h0
      exact h0)
    rw [hx]
  · rfl

theorem updatedDoc_none (schema : List (String × Json)) (rs : List Route)
    (h : alookup schema "paths" = none) : updatedDoc schema rs = schema := by
  unfold updatedDoc update_route_responses
  rw [h]

/-- A second pass of the route loop over its own output changes nothing,
given the no-duplicate-key invariant of the starting path map. -/
theorem runRoutes_fixpoint (rs : List Route) (paths0 : Json)
    (hn : pathsNodup paths0 = true) :
    (runRoutes (runRoutes paths0 rs).1 rs).1 = (runRoutes paths0 rs).1 := by
  have hsim0 : sim 0 paths0 (runRoutes paths0 rs).1 = true := runRoutes_evolve rs paths0
  have hnf : pathsNodup (runRoutes paths0 rs).1 = true := by
    rw [← pathsNodup_sim paths0 (runRoutes paths0 rs).1 hsim0]
    exact hn
  obtain ⟨_, hsimff, htriple⟩ := runRoutes_sim rs paths0 (runRoutes paths0 rs).1 hsim0
  have hpt : ∀ P M S, respAt (runRoutes paths0 rs).1 P M S =
      respAt (runRoutes (runRoutes paths0 rs).1 rs).1 P M S := by
    intro P M S
    by_cases hne : respAt (runRoutes paths0 rs).1 P M S =
        respAt (runRoutes (runRoutes paths0 rs).1 rs).1 P M S
    · exact hne
    · exact absurd (htriple P M S hne).2.1.symm hne
  exact (sim_extract (runRoutes paths0 rs).1 (runRoutes (runRoutes paths0 rs).1 rs).1
    hsimff hnf hpt).symm

/-- C2: `update_route_responses` is idempotent: applying it twice to the same
document with the same route table leaves the document in the same final
state as applying it once (under the Python-dictionary invariant that the
path map carries no duplicate keys). -/
theorem update_route_responses_idempotent (schema : List (String × Json))
    (rs : List Route)
    (hn : match alookup schema "paths" with
          | some p => pathsNodup p = true
          | none => True) :
    updatedDoc (updatedDoc schema rs) rs = updatedDoc schema rs := by
  cases h : alookup schema "paths" with
  | none =>
      rw [updatedDoc_none schema rs h]
      exact updatedDoc_none schema rs h
  | some paths0 =>
      have hn0 : pathsNodup paths0 = true := by
        rw [h] at hn
        exact hn
      rw [updatedDoc_eq schema paths0 rs h]
      have h2 : alookup (astore schema "paths" (runRoutes paths0 rs).1) "paths"
          = some (runRoutes paths0 rs).1 := alookup_astore_self schema "paths" _
      rw [updatedDoc_eq _ _ rs h2]
      rw [runRoutes_fixpoint rs paths0 hn0]
      exact astore_astore_self schema "paths" _ _

theorem update_route_responses_idempotent_witness :
    (match alookup demoSchema "paths" with
     | some p => pathsNodup p = true
     | none => True)
    ∧ updatedDoc (updatedDoc demoSchema [demoRoute]) [demoRoute]
      = updatedDoc demoSchema [demoRoute] :=
  ⟨(by decide : pathsNodup demoPaths = true),
    update_route_responses_idempotent demoSchema [demoRoute]
      (by decide : pathsNodup demoPaths = true)⟩
